import Mathlib

/-!
# Verification of the screech Noise handshake core

Shallow embedding of the repository sources:
* src/utils.rs        (Toggle, copy_memory)            — transcribed
* src/params/mod.rs   (parameter grammar, from_str)    — transcribed
* src/handshakestate.rs (HandshakeState and its state machine) — transcribed

Modules of the repository that are not under src/ (symmetricstate.rs,
cipherstate.rs, patterns.rs, error.rs, constants.rs, types.rs) are modelled
from the specification; each such definition carries a doc comment starting
with "Modelled from the spec:".

Byte strings are modelled as lists of naturals.  The concrete cryptographic
primitives (DH, AEAD, hash) are outside the core per the spec (§1, §6 treat
them as abstract capability contracts); they are instantiated here with
executable toy primitives that satisfy the contracts the core relies on
(DH commutativity, AEAD decrypt inverting encrypt, fixed tag length 16).

Rust panics (index out of bounds, buffer overruns inside external
primitives) are modelled by a dedicated `abort` outcome, distinct from
`Result::Err` values, so that "returns an error" and "panics" are
distinguishable propositions.
-/

namespace Screech

/-- Byte strings of the implementation, modelled as lists of naturals. -/
abbrev Bytes := List Nat

/-- Modelled from the spec: constants.rs is not under src/.  AEAD tag length (§6, glossary). -/
def TAGLEN : Nat := 16

/-- Modelled from the spec: constants.rs is not under src/.  PSK length enforced by set_psk (§4.E). -/
def PSKLEN : Nat := 32

/-- Modelled from the spec: constants.rs is not under src/.  Maximum Noise message length (glossary). -/
def MAXMSGLEN : Nat := 65535

/-- Modelled from the spec: constants.rs is not under src/.  Size of the rs/re buffers (§3). -/
def MAXDHLEN : Nat := 56

/-- Cheap byte-string digest used by the toy primitives (not injective; the
core never relies on injectivity, only on determinism). -/
def encBytes (l : Bytes) : Nat := l.foldl (fun a x => a * 256 + x % 256 + 1) 0

/-- Toy hash output length (HASHLEN of the instantiated hash capability). -/
def hashLen : Nat := 2

/-- Toy hash capability: deterministic digest of fixed length `hashLen`. -/
def hashBytes (d : Bytes) : Bytes := [encBytes d, d.length]

/-- Toy HMAC built over the toy hash (the spec §4.D only requires a keyed
deterministic function of (key, data) with hash-length output). -/
def hmacBytes (key data : Bytes) : Bytes := hashBytes (key ++ 0 :: data)

/-- Modelled from the spec: HKDF with two outputs (§4.D): prk = HMAC(ck, ikm);
out1 = HMAC(prk, 0x01); out2 = HMAC(prk, out1 || 0x02). -/
def hkdf2 (ck ikm : Bytes) : Bytes × Bytes :=
  let prk := hmacBytes ck ikm
  let o1 := hmacBytes prk [1]
  (o1, hmacBytes prk (o1 ++ [2]))

/-- Modelled from the spec: HKDF with three outputs (§4.D). -/
def hkdf3 (ck ikm : Bytes) : Bytes × Bytes × Bytes :=
  let prk := hmacBytes ck ikm
  let o1 := hmacBytes prk [1]
  let o2 := hmacBytes prk (o1 ++ [2])
  (o1, o2, hmacBytes prk (o2 ++ [3]))

/-- Toy AEAD tag: 16 bytes, a deterministic function of key, nonce, associated
data and plaintext (tag length per spec §4.A is 16). -/
def tagBytes (k : Bytes) (n : Nat) (ad pt : Bytes) : Bytes :=
  encBytes (k ++ n :: ad ++ pt) :: List.replicate (TAGLEN - 1) 0

/-- Toy AEAD encryption: ciphertext is plaintext followed by the 16-byte tag. -/
def aeadEncrypt (k : Bytes) (n : Nat) (ad pt : Bytes) : Bytes := pt ++ tagBytes k n ad pt

/-- Toy AEAD decryption: checks the tag, returning the plaintext on success. -/
def aeadDecrypt (k : Bytes) (n : Nat) (ad ct : Bytes) : Option Bytes :=
  if ct.length < TAGLEN then none
  else
    let pt := ct.take (ct.length - TAGLEN)
    if ct.drop (ct.length - TAGLEN) = tagBytes k n ad pt then some pt else none

/-- Toy DH public-key length; the core reads it through Dh::pub_len. -/
def dhLen : Nat := 2

/-- Toy DH public key derivation (public keys have length `dhLen`). -/
def dhPubkey (sk : Nat) : Bytes := [sk, 0]

/-- Toy DH shared-secret computation: uses the first byte of the remote
public-key buffer; commutative by construction, i.e.
dhCompute x (dhPubkey y ++ junk) = dhCompute y (dhPubkey x ++ junk). -/
def dhCompute (sk : Nat) (pubBuf : Bytes) : Bytes := [sk * pubBuf.headI, 0]

/-- Model of a Dh keypair object (types.rs is external; toy instantiation). -/
structure DhKey where
  sk : Nat
deriving DecidableEq

/-- Dh::pub_len of the toy DH capability (constant). -/
def DhKey.pubLen (_ : DhKey) : Nat := dhLen

/-- Dh::pubkey of the toy DH capability. -/
def DhKey.pubkey (d : DhKey) : Bytes := dhPubkey d.sk

/-- Dh::dh of the toy DH capability (never fails). -/
def DhKey.dhOut (d : DhKey) (remote : Bytes) : Bytes := dhCompute d.sk remote

/-- From src/utils.rs: Toggle is an Option-like container whose inner value is
always allocated; the source field named on (here onFlag, since that word is
reserved in Lean) signals presence. -/
structure Toggle (α : Type) where
  inner : α
  onFlag : Bool
deriving DecidableEq

/-- From src/utils.rs: Toggle::on (constructor with the flag set). -/
def Toggle.mkOn {α : Type} (a : α) : Toggle α := ⟨a, true⟩

/-- From src/utils.rs: Toggle::off (constructor with the flag clear). -/
def Toggle.mkOff {α : Type} (a : α) : Toggle α := ⟨a, false⟩

/-- From src/utils.rs: Toggle::enable sets the flag; it never clears it. -/
def Toggle.enable {α : Type} (t : Toggle α) : Toggle α := { t with onFlag := true }

/-- From src/utils.rs: Toggle::is_on. -/
def Toggle.isOn {α : Type} (t : Toggle α) : Bool := t.onFlag

/-- From src/utils.rs: Toggle::as_option_ref (used as .get() in handshakestate.rs). -/
def Toggle.get {α : Type} (t : Toggle α) : Option α := if t.onFlag then some t.inner else none

/-- Modelled from the spec: error.rs is not under src/.  Init-stage errors (§7). -/
inductive InitStage where
  | validateKeyLengths
deriving DecidableEq

/-- Modelled from the spec: error.rs is not under src/.  State-machine errors (§7). -/
inductive StateProblem where
  | missingKeyMaterial
  | missingPsk
  | notTurnToWrite
  | handshakeAlreadyFinished
deriving DecidableEq

/-- Modelled from the spec: error.rs is not under src/.  Parameter-grammar errors (§7). -/
inductive PatternProblem where
  | tooFewParameters
  | unsupportedBaseType
  | unsupportedHandshakeType
  | unsupportedModifier
  | unsupportedDhType
  | unsupportedCipherType
  | unsupportedHashType
deriving DecidableEq

/-- Modelled from the spec: error.rs is not under src/.  The error type surfaced
by the public operations (§7). -/
inductive NoiseError where
  | input
  | dh
  | decrypt
  | init : InitStage → NoiseError
  | state : StateProblem → NoiseError
  | pattern : PatternProblem → NoiseError
deriving DecidableEq

/-- Modelled from the spec: patterns.rs is not under src/.  Message-pattern
tokens (§3); hfs tokens are not modelled. -/
inductive Token where
  | e
  | s
  | dhee
  | dhes
  | dhse
  | dhss
  | psk : Nat → Token
deriving DecidableEq

/-- Modelled from the spec: patterns.rs is not under src/.  The base handshake
patterns listed in §4.B (deferred forms are not modelled). -/
inductive HandshakePattern where
  | N | K | X | NN | NK | NX | XN | XK | XX | KN | KK | KX | IN | IK | IX
deriving DecidableEq

/-- Modelled from the spec: patterns.rs is not under src/.  Pattern modifiers (§3). -/
inductive HandshakeModifier where
  | fallback
  | psk : Nat → HandshakeModifier
  | hfs
deriving DecidableEq

/-- From src/params/mod.rs: HandshakeChoice (pattern plus modifier list). -/
structure HandshakeChoice where
  pattern : HandshakePattern
  modifiers : List HandshakeModifier
deriving DecidableEq

/-- Modelled from the spec: HandshakeChoice::is_psk — whether any psk modifier
is present (used by the E token processing, §4.E step E). -/
def HandshakeChoice.isPsk (c : HandshakeChoice) : Bool :=
  c.modifiers.any fun m => match m with
    | HandshakeModifier.psk _ => true
    | _ => false

/-- Modelled from the spec: patterns.rs is not under src/.  Pre-message token
lists and per-message token lists of one expanded pattern (§3). -/
structure HandshakeTokens where
  premsgPatternI : List Token
  premsgPatternR : List Token
  msgPatterns : List (List Token)
deriving DecidableEq

/-- Modelled from the spec: patterns.rs is not under src/.  The literal pattern
tables (§4.C).  The ES/SE tokens are stored from the perspective of the side
sending the message (the convention that makes the operation-split dispatch in
handshakestate.rs — write: ES computes dh(e, rs), read: ES computes dh(s, re) —
reproduce the Noise-specification DH sequence, which §8 E1–E3 require and the
§9 note on the write/read dispatch asymmetry alludes to): in messages sent by
the responder, the Noise-spec es and se appear here as dhse and dhes
respectively. -/
def basePatternTokens : HandshakePattern → HandshakeTokens
  | HandshakePattern.N  => ⟨[], [Token.s], [[Token.e, Token.dhes]]⟩
  | HandshakePattern.K  => ⟨[Token.s], [Token.s], [[Token.e, Token.dhes, Token.dhss]]⟩
  | HandshakePattern.X  => ⟨[], [Token.s], [[Token.e, Token.dhes, Token.s, Token.dhss]]⟩
  | HandshakePattern.NN => ⟨[], [], [[Token.e], [Token.e, Token.dhee]]⟩
  | HandshakePattern.NK => ⟨[], [Token.s], [[Token.e, Token.dhes], [Token.e, Token.dhee]]⟩
  | HandshakePattern.NX => ⟨[], [], [[Token.e], [Token.e, Token.dhee, Token.s, Token.dhse]]⟩
  | HandshakePattern.XN => ⟨[], [], [[Token.e], [Token.e, Token.dhee], [Token.s, Token.dhse]]⟩
  | HandshakePattern.XK => ⟨[], [Token.s], [[Token.e, Token.dhes], [Token.e, Token.dhee], [Token.s, Token.dhse]]⟩
  | HandshakePattern.XX => ⟨[], [], [[Token.e], [Token.e, Token.dhee, Token.s, Token.dhse], [Token.s, Token.dhse]]⟩
  | HandshakePattern.KN => ⟨[Token.s], [], [[Token.e], [Token.e, Token.dhee, Token.dhes]]⟩
  | HandshakePattern.KK => ⟨[Token.s], [Token.s], [[Token.e, Token.dhes, Token.dhss], [Token.e, Token.dhee, Token.dhes]]⟩
  | HandshakePattern.KX => ⟨[Token.s], [], [[Token.e], [Token.e, Token.dhee, Token.dhes, Token.s, Token.dhse]]⟩
  | HandshakePattern.IN => ⟨[], [], [[Token.e, Token.s], [Token.e, Token.dhee, Token.dhes]]⟩
  | HandshakePattern.IK => ⟨[], [Token.s], [[Token.e, Token.dhes, Token.s, Token.dhss], [Token.e, Token.dhee, Token.dhes]]⟩
  | HandshakePattern.IX => ⟨[], [], [[Token.e, Token.s], [Token.e, Token.dhee, Token.dhes, Token.s, Token.dhse]]⟩

/-- The base patterns supported by the model (the pattern identifiers §4.B
lists; deferred forms, which the spec names only by example, are left out). -/
def supportedPatterns : List HandshakePattern :=
  [HandshakePattern.N, HandshakePattern.K, HandshakePattern.X,
   HandshakePattern.NN, HandshakePattern.NK, HandshakePattern.NX,
   HandshakePattern.XN, HandshakePattern.XK, HandshakePattern.XX,
   HandshakePattern.KN, HandshakePattern.KK, HandshakePattern.KX,
   HandshakePattern.IN, HandshakePattern.IK, HandshakePattern.IX]

/-- Helper for the psk modifier: append a token to the message at index i. -/
def appendTokenAt : List (List Token) → Nat → Token → List (List Token)
  | [], _, _ => []
  | m :: rest, 0, t => (m ++ [t]) :: rest
  | m :: rest, Nat.succ j, t => m :: appendTokenAt rest j t

/-- Modelled from the spec: patterns.rs is not under src/.  Modifier
application (§4.C): psk0 prepends a Psk token to the first message; psk k for
k ≥ 1 appends a Psk(k-1) token to message k (1-indexed); a psk modifier whose
message does not exist is an unresolvable combination.  The fallback and hfs
expansions, which the spec describes only in summary, are not modelled and are
mapped to UnsupportedModifier. -/
def applyModifier (tokens : HandshakeTokens) : HandshakeModifier → Except NoiseError HandshakeTokens
  | HandshakeModifier.psk 0 =>
    match tokens.msgPatterns with
    | [] => Except.error (NoiseError.pattern PatternProblem.unsupportedModifier)
    | m :: rest => Except.ok { tokens with msgPatterns := (Token.psk 0 :: m) :: rest }
  | HandshakeModifier.psk (Nat.succ j) =>
    if j < tokens.msgPatterns.length then
      Except.ok { tokens with msgPatterns := appendTokenAt tokens.msgPatterns j (Token.psk j) }
    else Except.error (NoiseError.pattern PatternProblem.unsupportedModifier)
  | _ => Except.error (NoiseError.pattern PatternProblem.unsupportedModifier)

/-- Modelled from the spec: patterns.rs is not under src/.
HandshakeTokens::try_from(&HandshakeChoice): expand the base pattern and apply
the modifiers in order (§4.C). -/
def HandshakeTokens.tryFrom (c : HandshakeChoice) : Except NoiseError HandshakeTokens :=
  c.modifiers.foldlM applyModifier (basePatternTokens c.pattern)

/-- Modelled from the spec: cipherstate.rs is not under src/.  A transport
cipher state: 32-byte key, 64-bit nonce starting at zero (§6). -/
structure CipherState where
  k : Bytes
  n : Nat
deriving DecidableEq

/-- Modelled from the spec: transport encryption with the cipher state's
current nonce, incrementing it (§6, §4.A). -/
def CipherState.encryptWith (cs : CipherState) (ad pt : Bytes) : Bytes × CipherState :=
  (aeadEncrypt cs.k cs.n ad pt, { cs with n := cs.n + 1 })

/-- Modelled from the spec: transport decryption with the cipher state's
current nonce, incrementing it on success (§6, §4.A). -/
def CipherState.decryptWith (cs : CipherState) (ad ct : Bytes) : Option (Bytes × CipherState) :=
  match aeadDecrypt cs.k cs.n ad ct with
  | none => none
  | some pt => some (pt, { cs with n := cs.n + 1 })

/-- Modelled from the spec: symmetricstate.rs is not under src/.  The symmetric
state (§3, §4.D): hash h, chaining key ck, and the handshake cipher's key and
nonce with a key-installed flag. -/
structure SymmetricState where
  h : Bytes
  ck : Bytes
  hasKey : Bool
  k : Bytes
  n : Nat
deriving DecidableEq

/-- Modelled from the spec: SymmetricState::initialize (§4.D; named
initializeSym here since the source name is reserved): pad the protocol name
into h when it fits, hash it otherwise; ck = h; no key installed. -/
def SymmetricState.initializeSym (name : Bytes) : SymmetricState :=
  let h := if name.length ≤ hashLen then name ++ List.replicate (hashLen - name.length) 0
           else hashBytes name
  { h := h, ck := h, hasKey := false, k := [], n := 0 }

/-- Modelled from the spec: mix_hash (§4.D): h = HASH(h || data). -/
def SymmetricState.mixHash (st : SymmetricState) (data : Bytes) : SymmetricState :=
  { st with h := hashBytes (st.h ++ data) }

/-- Modelled from the spec: mix_key (§4.D): two-output HKDF; install the key
(truncated to 32 bytes) and reset the nonce. -/
def SymmetricState.mixKey (st : SymmetricState) (ikm : Bytes) : SymmetricState :=
  let o := hkdf2 st.ck ikm
  { st with ck := o.1, hasKey := true, k := o.2.take 32, n := 0 }

/-- Modelled from the spec: mix_key_and_hash (§4.D): three-output HKDF; mix the
second output into h; install the third as key and reset the nonce. -/
def SymmetricState.mixKeyAndHash (st : SymmetricState) (ikm : Bytes) : SymmetricState :=
  let o := hkdf3 st.ck ikm
  let st2 := SymmetricState.mixHash { st with ck := o.1 } o.2.1
  { st2 with hasKey := true, k := o.2.2.take 32, n := 0 }

/-- Modelled from the spec: encrypt_and_mix_hash (§4.D): AEAD-encrypt with the
current nonce when a key is installed (incrementing the nonce), pass the
plaintext through otherwise; then mix the ciphertext into h. -/
def SymmetricState.encryptAndMixHash (st : SymmetricState) (pt : Bytes) : Bytes × SymmetricState :=
  if st.hasKey then
    let ct := aeadEncrypt st.k st.n st.h pt
    (ct, SymmetricState.mixHash { st with n := st.n + 1 } ct)
  else (pt, SymmetricState.mixHash st pt)

/-- Modelled from the spec: decrypt_and_mix_hash (§4.D): AEAD-decrypt with the
current nonce when a key is installed, then increment the nonce and mix the
ciphertext into h; without a key the ciphertext is the plaintext. -/
def SymmetricState.decryptAndMixHash (st : SymmetricState) (ct : Bytes) : Option (Bytes × SymmetricState) :=
  if st.hasKey then
    match aeadDecrypt st.k st.n st.h ct with
    | none => none
    | some pt => some (pt, SymmetricState.mixHash { st with n := st.n + 1 } ct)
  else some (ct, SymmetricState.mixHash st ct)

/-- Modelled from the spec: split (§4.D): two-output HKDF over (ck, empty);
install into two fresh transport cipher states with nonce 0. -/
def SymmetricState.split (st : SymmetricState) : CipherState × CipherState :=
  let o := hkdf2 st.ck []
  (⟨o.1.take 32, 0⟩, ⟨o.2.take 32, 0⟩)

/-- From src/handshakestate.rs: the handshake state.  `params` is represented
by the fields the state machine reads from it: `isPskHandshake` stands for
`params.handshake.is_psk()`.  The RNG capability is modelled as a counter whose
successive values are the generated private keys. -/
structure HandshakeState where
  rng : Nat
  sym : SymmetricState
  cipherstates : CipherState × CipherState
  s : Toggle DhKey
  e : Toggle DhKey
  fixedEphemeral : Bool
  rs : Toggle Bytes
  re : Toggle Bytes
  initiator : Bool
  isPskHandshake : Bool
  psks : List (Option Bytes)
  myTurn : Bool
  messagePatterns : List (List Token)
  patternPosition : Nat
deriving DecidableEq

/-- From src/handshakestate.rs: dh_len(), i.e. self.s.pub_len() (read through
the Deref on Toggle, so independent of the flag). -/
def HandshakeState.dhl (st : HandshakeState) : Nat := st.s.inner.pubLen

/-- From src/handshakestate.rs: the private dh(local_s, remote_s) helper:
check that the four needed slots are on, pick (s or e, rs or re), compute.
The toy DH capability never fails, so the Error::Dh arm is not exercised. -/
def HandshakeState.dh (st : HandshakeState) (localS remoteS : Bool) : Except NoiseError Bytes :=
  if ((!localS || st.s.isOn) && (localS || st.e.isOn) &&
      (!remoteS || st.rs.isOn) && (remoteS || st.re.isOn)) = true then
    let dhk := if localS then st.s.inner else st.e.inner
    let key := if remoteS then st.rs.inner else st.re.inner
    Except.ok (dhk.dhOut key)
  else Except.error (NoiseError.state StateProblem.missingKeyMaterial)

/-- From src/handshakestate.rs, _write_handshake_message: the
(local_is_static, remote_is_static) pair the write path passes to dh for each
DH token (Dhee → (false,false), Dhes → (false,true), Dhse → (true,false),
Dhss → (true,true)); none for non-DH tokens. -/
def dhArgsWrite : Token → Option (Bool × Bool)
  | Token.dhee => some (false, false)
  | Token.dhes => some (false, true)
  | Token.dhse => some (true, false)
  | Token.dhss => some (true, true)
  | _ => none

/-- From src/handshakestate.rs, _read_handshake_message: the
(local_is_static, remote_is_static) pair the read path passes to dh for each
DH token (Dhee → (false,false), Dhes → (true,false), Dhse → (false,true),
Dhss → (true,true)); none for non-DH tokens. -/
def dhArgsRead : Token → Option (Bool × Bool)
  | Token.dhee => some (false, false)
  | Token.dhes => some (true, false)
  | Token.dhse => some (false, true)
  | Token.dhss => some (true, true)
  | _ => none

/-- Outcome of one mutating call: success or error, each carrying the
resulting state (Rust mutates in place), or a panic (`abort`). -/
inductive StepResult (α : Type) where
  | ok : α → HandshakeState → StepResult α
  | fail : NoiseError → HandshakeState → StepResult α
  | abort : StepResult α
deriving DecidableEq

/-- Whether a step result is a success. -/
def StepResult.isOk {α : Type} : StepResult α → Bool
  | StepResult.ok _ _ => true
  | _ => false

/-- From src/handshakestate.rs, _write_handshake_message: processing of one DH
token on the write path: dh with the write-path argument pair, then
mix_key(dh_out[..dh_len]). -/
def dhTokenWrite (st : HandshakeState) (msg : Bytes) (t : Token) : StepResult Bytes :=
  match dhArgsWrite t with
  | some ab =>
    match st.dh ab.1 ab.2 with
    | Except.error err => StepResult.fail err st
    | Except.ok dhOut =>
      StepResult.ok msg { st with sym := st.sym.mixKey (dhOut.take st.dhl) }
  | none => StepResult.abort

/-- From src/handshakestate.rs, _read_handshake_message: processing of one DH
token on the read path: dh with the read-path argument pair, then
mix_key(dh_out[..dh_len]). -/
def dhTokenRead (st : HandshakeState) (ptr : Bytes) (t : Token) : StepResult Bytes :=
  match dhArgsRead t with
  | some ab =>
    match st.dh ab.1 ab.2 with
    | Except.error err => StepResult.fail err st
    | Except.ok dhOut =>
      StepResult.ok ptr { st with sym := st.sym.mixKey (dhOut.take st.dhl) }
  | none => StepResult.abort

/-- From src/handshakestate.rs, _write_handshake_message: processing of one
token of the current message pattern.  `msg` is the output written so far
(its length is the byte_index cursor) and `cap` the output buffer's length.
On E: bounds check, generate the ephemeral unless fixed, write its public key,
mix_hash (and mix_key for psk handshakes), enable `e`.  On S: require `s` on,
bounds check, encrypt_and_mix_hash the static public key (a write past the
buffer inside the external cipher is a panic, `abort`).  On Psk(n): index the
psk array (out of range panics), missing entry is MissingPsk, otherwise
mix_key_and_hash.  DH tokens as in `dhTokenWrite`. -/
def processWriteToken (st : HandshakeState) (msg : Bytes) (cap : Nat) : Token → StepResult Bytes
  | Token.e =>
    if cap < msg.length + st.e.inner.pubLen then StepResult.fail NoiseError.input st
    else
      let st1 := if st.fixedEphemeral then st
                 else { st with e := { st.e with inner := ⟨st.rng⟩ }, rng := st.rng + 1 }
      let pubkey := st1.e.inner.pubkey
      let st2 := { st1 with sym := st1.sym.mixHash pubkey }
      let st3 := if st2.isPskHandshake then { st2 with sym := st2.sym.mixKey pubkey } else st2
      StepResult.ok (msg ++ pubkey) { st3 with e := st3.e.enable }
  | Token.s =>
    if st.s.isOn = false then StepResult.fail (NoiseError.state StateProblem.missingKeyMaterial) st
    else if cap < msg.length + st.s.inner.pubLen then StepResult.fail NoiseError.input st
    else
      let r := st.sym.encryptAndMixHash st.s.inner.pubkey
      if cap < msg.length + r.1.length then StepResult.abort
      else StepResult.ok (msg ++ r.1) { st with sym := r.2 }
  | Token.psk n =>
    match st.psks.get? n with
    | none => StepResult.abort
    | some none => StepResult.fail (NoiseError.state StateProblem.missingPsk) st
    | some (some psk) => StepResult.ok msg { st with sym := st.sym.mixKeyAndHash psk }
  | Token.dhee => dhTokenWrite st msg Token.dhee
  | Token.dhes => dhTokenWrite st msg Token.dhes
  | Token.dhse => dhTokenWrite st msg Token.dhse
  | Token.dhss => dhTokenWrite st msg Token.dhss

/-- From src/handshakestate.rs: the write-path token loop. -/
def processWriteTokens (st : HandshakeState) (msg : Bytes) (cap : Nat) : List Token → StepResult Bytes
  | [] => StepResult.ok msg st
  | t :: ts =>
    match processWriteToken st msg cap t with
    | StepResult.ok msg2 st2 => processWriteTokens st2 msg2 cap ts
    | StepResult.fail err st2 => StepResult.fail err st2
    | StepResult.abort => StepResult.abort

/-- From src/handshakestate.rs, _read_handshake_message: processing of one
token of the current message pattern; `ptr` is the unread remainder of the
incoming message.  On E: bounds check, copy dh_len bytes into `re`, mix_hash
(and mix_key for psk handshakes) over re[..dh_len], enable `re`.  On S:
consume dh_len (+TAGLEN when a key is installed) bytes, decrypt_and_mix_hash
into rs[..dh_len] (failure is Error::Decrypt), enable `rs`.  Psk and DH tokens
as on the write path but with the read-path DH argument pair. -/
def processReadToken (st : HandshakeState) (ptr : Bytes) : Token → StepResult Bytes
  | Token.e =>
    if ptr.length < st.dhl then StepResult.fail NoiseError.input st
    else
      let re2 := ptr.take st.dhl ++ st.re.inner.drop st.dhl
      let st1 := { st with re := { st.re with inner := re2 } }
      let st2 := { st1 with sym := st1.sym.mixHash (re2.take st.dhl) }
      let st3 := if st2.isPskHandshake then { st2 with sym := st2.sym.mixKey (re2.take st.dhl) } else st2
      StepResult.ok (ptr.drop st.dhl) { st3 with re := st3.re.enable }
  | Token.s =>
    let needed := if st.sym.hasKey then st.dhl + TAGLEN else st.dhl
    if ptr.length < needed then StepResult.fail NoiseError.input st
    else
      match st.sym.decryptAndMixHash (ptr.take needed) with
      | none => StepResult.fail NoiseError.decrypt st
      | some r =>
        let rs2 := r.1 ++ st.rs.inner.drop r.1.length
        StepResult.ok (ptr.drop needed)
          { st with sym := r.2, rs := Toggle.enable { st.rs with inner := rs2 } }
  | Token.psk n =>
    match st.psks.get? n with
    | none => StepResult.abort
    | some none => StepResult.fail (NoiseError.state StateProblem.missingPsk) st
    | some (some psk) => StepResult.ok ptr { st with sym := st.sym.mixKeyAndHash psk }
  | Token.dhee => dhTokenRead st ptr Token.dhee
  | Token.dhes => dhTokenRead st ptr Token.dhes
  | Token.dhse => dhTokenRead st ptr Token.dhse
  | Token.dhss => dhTokenRead st ptr Token.dhss

/-- From src/handshakestate.rs: the read-path token loop. -/
def processReadTokens (st : HandshakeState) (ptr : Bytes) : List Token → StepResult Bytes
  | [] => StepResult.ok ptr st
  | t :: ts =>
    match processReadToken st ptr t with
    | StepResult.ok ptr2 st2 => processReadTokens st2 ptr2 ts
    | StepResult.fail err st2 => StepResult.fail err st2
    | StepResult.abort => StepResult.abort

/-- From src/handshakestate.rs: _write_handshake_message.  Turn and finished
checks; token loop; payload bounds check (cursor + payload + TAGLEN against
the buffer); encrypt_and_mix_hash of the payload; MAXMSGLEN check on the final
cursor; split into the transport pair on the last message; my_turn := false.
Returns the cursor and the written message. -/
def innerWrite (st : HandshakeState) (payload : Bytes) (cap : Nat) : StepResult (Nat × Bytes) :=
  if st.myTurn = false then StepResult.fail (NoiseError.state StateProblem.notTurnToWrite) st
  else if st.messagePatterns.length ≤ st.patternPosition then
    StepResult.fail (NoiseError.state StateProblem.handshakeAlreadyFinished) st
  else
    match st.messagePatterns.get? st.patternPosition with
    | none => StepResult.abort
    | some tokens =>
      match processWriteTokens st [] cap tokens with
      | StepResult.abort => StepResult.abort
      | StepResult.fail err st2 => StepResult.fail err st2
      | StepResult.ok msg st2 =>
        if cap < msg.length + payload.length + TAGLEN then StepResult.fail NoiseError.input st2
        else
          let r := st2.sym.encryptAndMixHash payload
          if cap < msg.length + r.1.length then StepResult.abort
          else
            let msg2 := msg ++ r.1
            let st3 := { st2 with sym := r.2 }
            if MAXMSGLEN < msg2.length then StepResult.fail NoiseError.input st3
            else
              let st4 := if st3.patternPosition = st3.messagePatterns.length - 1 then
                           { st3 with cipherstates := st3.sym.split }
                         else st3
              StepResult.ok (msg2.length, msg2) { st4 with myTurn := false }

/-- From src/handshakestate.rs: write_handshake_message — checkpoint the
symmetric state, run the inner function, advance pattern_position on success,
restore the checkpoint on error.  (The slots are not restored; a panic in the
inner function propagates.) -/
def writeHandshakeMessage (st : HandshakeState) (payload : Bytes) (cap : Nat) : StepResult (Nat × Bytes) :=
  match innerWrite st payload cap with
  | StepResult.ok res st2 => StepResult.ok res { st2 with patternPosition := st2.patternPosition + 1 }
  | StepResult.fail err st2 => StepResult.fail err { st2 with sym := st.sym }
  | StepResult.abort => StepResult.abort

/-- From src/handshakestate.rs: _read_handshake_message.  MAXMSGLEN check on
the incoming message; `last` is computed up front; the current message pattern
is indexed without a finished check (out of range is a panic, hence `abort`);
token loop; decrypt_and_mix_hash of the remaining trailer; my_turn := true;
split on the last message; the returned payload length subtracts TAGLEN when a
key is installed.  There is no turn check on this path. -/
def innerRead (st : HandshakeState) (message : Bytes) : StepResult (Nat × Bytes) :=
  if MAXMSGLEN < message.length then StepResult.fail NoiseError.input st
  else
    let last := st.patternPosition = st.messagePatterns.length - 1
    match st.messagePatterns.get? st.patternPosition with
    | none => StepResult.abort
    | some tokens =>
      match processReadTokens st message tokens with
      | StepResult.abort => StepResult.abort
      | StepResult.fail err st2 => StepResult.fail err st2
      | StepResult.ok ptr st2 =>
        match st2.sym.decryptAndMixHash ptr with
        | none => StepResult.fail NoiseError.decrypt st2
        | some r =>
          let st3 := { st2 with sym := r.2, myTurn := true }
          let st4 := if last then { st3 with cipherstates := st3.sym.split } else st3
          let payloadLen := if st4.sym.hasKey then ptr.length - TAGLEN else ptr.length
          StepResult.ok (payloadLen, r.1) st4

/-- From src/handshakestate.rs: read_handshake_message — checkpoint, inner
call, advance pattern_position on success, restore the symmetric state on
error. -/
def readHandshakeMessage (st : HandshakeState) (message : Bytes) : StepResult (Nat × Bytes) :=
  match innerRead st message with
  | StepResult.ok res st2 => StepResult.ok res { st2 with patternPosition := st2.patternPosition + 1 }
  | StepResult.fail err st2 => StepResult.fail err { st2 with sym := st.sym }
  | StepResult.abort => StepResult.abort

/-- From src/handshakestate.rs: set_psk — reject keys that are not PSKLEN bytes
and locations past the psk array; otherwise store the key. -/
def setPsk (st : HandshakeState) (location : Nat) (key : Bytes) : Except NoiseError HandshakeState :=
  if key.length ≠ PSKLEN ∨ st.psks.length ≤ location then Except.error NoiseError.input
  else Except.ok { st with psks := st.psks.set location (some key) }

/-- From src/handshakestate.rs: get_remote_static — rs[..dh_len] iff the slot
is on. -/
def getRemoteStatic (st : HandshakeState) : Option Bytes :=
  st.rs.get.map fun b => b.take st.dhl

/-- From src/handshakestate.rs: get_handshake_hash. -/
def getHandshakeHash (st : HandshakeState) : Bytes := st.sym.h

/-- From src/handshakestate.rs: is_initiator. -/
def isInitiator (st : HandshakeState) : Bool := st.initiator

/-- From src/handshakestate.rs: is_finished. -/
def isFinished (st : HandshakeState) : Bool := st.patternPosition = st.messagePatterns.length

/-- From src/handshakestate.rs: was_write_payload_encrypted. -/
def wasWritePayloadEncrypted (st : HandshakeState) : Bool := st.sym.hasKey

/-- Decidable equality for Except results, used to state and evaluate
concrete outcomes. -/
instance instDecEqExcept {ε α : Type} [DecidableEq ε] [DecidableEq α] :
    DecidableEq (Except ε α) := fun x y =>
  match x, y with
  | Except.ok a, Except.ok b =>
    if h : a = b then isTrue (by rw [h]) else isFalse (fun hh => h (Except.ok.inj hh))
  | Except.error a, Except.error b =>
    if h : a = b then isTrue (by rw [h]) else isFalse (fun hh => h (Except.error.inj hh))
  | Except.ok _, Except.error _ => isFalse (fun hh => Except.noConfusion hh)
  | Except.error _, Except.ok _ => isFalse (fun hh => Except.noConfusion hh)

/-- Outcome of a constructor-like operation: a value, an error, or a panic. -/
inductive POutcome (α : Type) where
  | ok : α → POutcome α
  | fail : NoiseError → POutcome α
  | abort : POutcome α
deriving DecidableEq

/-- From src/handshakestate.rs, HandshakeState::new: one pre-message mixing
loop.  `own` tells whether this pre-message pattern belongs to the executing
side's role (then keys are drawn from the local s/e slots) or the peer's (then
from the rs/re buffers, truncated to dh_len).  A missing slot is
MissingKeyMaterial; a non-S/E token is the source's unreachable!() panic. -/
def mixPremsg (s e : Toggle DhKey) (rs re : Toggle Bytes) (dhl : Nat) (own : Bool) :
    SymmetricState → List Token → POutcome SymmetricState
  | sym, [] => POutcome.ok sym
  | sym, Token.s :: ts =>
    if own then
      match s.get with
      | some d => mixPremsg s e rs re dhl own (sym.mixHash d.pubkey) ts
      | none => POutcome.fail (NoiseError.state StateProblem.missingKeyMaterial)
    else
      match rs.get with
      | some b => mixPremsg s e rs re dhl own (sym.mixHash (b.take dhl)) ts
      | none => POutcome.fail (NoiseError.state StateProblem.missingKeyMaterial)
  | sym, Token.e :: ts =>
    if own then
      match e.get with
      | some d => mixPremsg s e rs re dhl own (sym.mixHash d.pubkey) ts
      | none => POutcome.fail (NoiseError.state StateProblem.missingKeyMaterial)
    else
      match re.get with
      | some b => mixPremsg s e rs re dhl own (sym.mixHash (b.take dhl)) ts
      | none => POutcome.fail (NoiseError.state StateProblem.missingKeyMaterial)
  | _, _ :: _ => POutcome.abort

/-- From src/handshakestate.rs: HandshakeState::new.  Key-length validation;
pattern expansion; sym.initialize(name); sym.mix_hash(prologue); pre-message
mixing with the initiator's pre-message pattern first and the responder's
second, the sources chosen by the executing side's role; then the assembled
state with my_turn = initiator and pattern_position = 0.  `name` is the
protocol name as bytes; `handshake` stands for params.handshake. -/
def HandshakeState.new (rng : Nat) (s e : Toggle DhKey) (fixedEphemeral : Bool)
    (rs re : Toggle Bytes) (initiator : Bool) (name : Bytes)
    (handshake : HandshakeChoice) (psks : List (Option Bytes)) (prologue : Bytes) :
    POutcome HandshakeState :=
  if ((s.isOn && e.isOn && decide (s.inner.pubLen ≠ e.inner.pubLen)) ||
      (s.isOn && rs.isOn && decide (rs.inner.length < s.inner.pubLen)) ||
      (s.isOn && re.isOn && decide (re.inner.length < s.inner.pubLen))) = true then
    POutcome.fail (NoiseError.init InitStage.validateKeyLengths)
  else
    match HandshakeTokens.tryFrom handshake with
    | Except.error err => POutcome.fail err
    | Except.ok tokens =>
      let sym1 := (SymmetricState.initializeSym name).mixHash prologue
      let dhl := s.inner.pubLen
      match mixPremsg s e rs re dhl initiator sym1 tokens.premsgPatternI with
      | POutcome.fail err => POutcome.fail err
      | POutcome.abort => POutcome.abort
      | POutcome.ok sym2 =>
        match mixPremsg s e rs re dhl (!initiator) sym2 tokens.premsgPatternR with
        | POutcome.fail err => POutcome.fail err
        | POutcome.abort => POutcome.abort
        | POutcome.ok sym3 =>
          POutcome.ok
            { rng := rng
              sym := sym3
              cipherstates := (⟨[], 0⟩, ⟨[], 0⟩)
              s := s
              e := e
              fixedEphemeral := fixedEphemeral
              rs := rs
              re := re
              initiator := initiator
              isPskHandshake := handshake.isPsk
              psks := psks
              myTurn := initiator
              messagePatterns := tokens.msgPatterns
              patternPosition := 0 }

/-- From src/params/mod.rs: BaseChoice. -/
inductive BaseChoice where
  | noise
deriving DecidableEq

/-- From src/params/mod.rs: BaseChoice::from_str. -/
def BaseChoice.fromStr (str : String) : Except NoiseError BaseChoice :=
  if str = "Noise" then Except.ok BaseChoice.noise
  else Except.error (NoiseError.pattern PatternProblem.unsupportedBaseType)

/-- From src/params/mod.rs: DHChoice. -/
inductive DHChoice where
  | curve25519
  | ed448
deriving DecidableEq

/-- From src/params/mod.rs: DHChoice::from_str. -/
def DHChoice.fromStr (str : String) : Except NoiseError DHChoice :=
  if str = "25519" then Except.ok DHChoice.curve25519
  else if str = "448" then Except.ok DHChoice.ed448
  else Except.error (NoiseError.pattern PatternProblem.unsupportedDhType)

/-- From src/params/mod.rs: CipherChoice. -/
inductive CipherChoice where
  | chaChaPoly
  | aesgcm
deriving DecidableEq

/-- From src/params/mod.rs: CipherChoice::from_str. -/
def CipherChoice.fromStr (str : String) : Except NoiseError CipherChoice :=
  if str = "ChaChaPoly" then Except.ok CipherChoice.chaChaPoly
  else if str = "AESGCM" then Except.ok CipherChoice.aesgcm
  else Except.error (NoiseError.pattern PatternProblem.unsupportedCipherType)

/-- From src/params/mod.rs: HashChoice. -/
inductive HashChoice where
  | sha256
  | sha512
  | blake2s
  | blake2b
deriving DecidableEq

/-- From src/params/mod.rs: HashChoice::from_str. -/
def HashChoice.fromStr (str : String) : Except NoiseError HashChoice :=
  if str = "SHA256" then Except.ok HashChoice.sha256
  else if str = "SHA512" then Except.ok HashChoice.sha512
  else if str = "BLAKE2s" then Except.ok HashChoice.blake2s
  else if str = "BLAKE2b" then Except.ok HashChoice.blake2b
  else Except.error (NoiseError.pattern PatternProblem.unsupportedHashType)

/-- Modelled from the spec: patterns.rs is not under src/.  The base pattern
identifier table used by HandshakePattern::from_str (§4.B). -/
def patternFromStr (str : String) : Option HandshakePattern :=
  if str = "N" then some HandshakePattern.N
  else if str = "K" then some HandshakePattern.K
  else if str = "X" then some HandshakePattern.X
  else if str = "NN" then some HandshakePattern.NN
  else if str = "NK" then some HandshakePattern.NK
  else if str = "NX" then some HandshakePattern.NX
  else if str = "XN" then some HandshakePattern.XN
  else if str = "XK" then some HandshakePattern.XK
  else if str = "XX" then some HandshakePattern.XX
  else if str = "KN" then some HandshakePattern.KN
  else if str = "KK" then some HandshakePattern.KK
  else if str = "KX" then some HandshakePattern.KX
  else if str = "IN" then some HandshakePattern.IN
  else if str = "IK" then some HandshakePattern.IK
  else if str = "IX" then some HandshakePattern.IX
  else none

/-- Splitting a character list on a separator, as Rust's str::split does
(adjacent separators yield empty fields; the empty input yields one empty
field). -/
def splitChar (sep : Char) : List Char → List (List Char)
  | [] => [[]]
  | c :: rest =>
    let r := splitChar sep rest
    if c = sep then [] :: r
    else
      match r with
      | [] => [[c]]
      | g :: gs => (c :: g) :: gs

/-- str.split on a separator character, field by field as Strings. -/
def splitOnSep (sep : Char) (str : String) : List String :=
  (splitChar sep str.data).map (fun cs => String.mk cs)

/-- A nonempty all-digit string read as a decimal number (Rust's
str::parse::<u8> before its range check). -/
def charsToNat? (cs : List Char) : Option Nat :=
  if cs = [] then none
  else if cs.all Char.isDigit then
    some (cs.foldl (fun a c => a * 10 + (c.toNat - 48)) 0)
  else none

/-- Modelled from the spec: patterns.rs is not under src/.  Modifier parsing
(§4.B): fallback, hfs, or psk followed by a number in 0..=255. -/
def modifierFromStr (str : String) : Except NoiseError HandshakeModifier :=
  if str = "fallback" then Except.ok HandshakeModifier.fallback
  else if str = "hfs" then Except.ok HandshakeModifier.hfs
  else
    match str.data with
    | 'p' :: 's' :: 'k' :: rest =>
      match charsToNat? rest with
      | some n =>
        if n ≤ 255 then Except.ok (HandshakeModifier.psk n)
        else Except.error (NoiseError.pattern PatternProblem.unsupportedModifier)
      | none => Except.error (NoiseError.pattern PatternProblem.unsupportedModifier)
    | _ => Except.error (NoiseError.pattern PatternProblem.unsupportedModifier)

/-- A pattern-identifier character (§4.B: uppercase letter or digit). -/
def isPatternChar (c : Char) : Bool := c.isUpper || c.isDigit

/-- Modelled from the spec: patterns.rs is not under src/.
HandshakeChoice::from_str (§4.B): the leading run of pattern-identifier
characters is consumed greedily as the pattern name; the remainder, when
non-empty, is split on plus signs into modifiers. -/
def HandshakeChoice.fromStr (str : String) : Except NoiseError HandshakeChoice :=
  let patStr : String := ⟨str.data.takeWhile isPatternChar⟩
  let rest : String := ⟨str.data.dropWhile isPatternChar⟩
  match patternFromStr patStr with
  | none => Except.error (NoiseError.pattern PatternProblem.unsupportedHandshakeType)
  | some p =>
    if rest = "" then Except.ok ⟨p, []⟩
    else
      match (splitOnSep '+' rest).mapM modifierFromStr with
      | Except.error err => Except.error err
      | Except.ok mods => Except.ok ⟨p, mods⟩

/-- From src/params/mod.rs: NoiseParams (the hfs kem field is feature-gated
off). -/
structure NoiseParams where
  name : String
  base : BaseChoice
  handshake : HandshakeChoice
  dhc : DHChoice
  cipher : CipherChoice
  hashc : HashChoice
deriving DecidableEq

/-- From src/params/mod.rs: the split iterator's next(), which yields
TooFewParameters once the fields run out. -/
def nextField : List String → Except NoiseError (String × List String)
  | [] => Except.error (NoiseError.pattern PatternProblem.tooFewParameters)
  | x :: xs => Except.ok (x, xs)

/-- From src/params/mod.rs: NoiseParams::from_str (the default, non-hfs
build): split on underscores and parse base, handshake, dh, cipher and hash in
order, each field's absence yielding TooFewParameters and each parser
reporting its own Unsupported error. -/
def NoiseParams.fromStr (str : String) : Except NoiseError NoiseParams := do
  let fields := splitOnSep '_' str
  let f1 ← nextField fields
  let base ← BaseChoice.fromStr f1.1
  let f2 ← nextField f1.2
  let handshake ← HandshakeChoice.fromStr f2.1
  let f3 ← nextField f2.2
  let dhc ← DHChoice.fromStr f3.1
  let f4 ← nextField f3.2
  let cipher ← CipherChoice.fromStr f4.1
  let f5 ← nextField f4.2
  let hashc ← HashChoice.fromStr f5.1
  Except.ok ⟨str, base, handshake, dhc, cipher, hashc⟩

/-! ## Frame and monotonicity lemmas for the token processors -/

/-- Fields a write-path token step can never change (everything except the
symmetric state, the ephemeral keypair and the RNG). -/
def writeFrame (a b : HandshakeState) : Prop :=
  b.s = a.s ∧ b.rs = a.rs ∧ b.re = a.re ∧ b.psks = a.psks ∧ b.initiator = a.initiator ∧
  b.isPskHandshake = a.isPskHandshake ∧ b.fixedEphemeral = a.fixedEphemeral ∧
  b.myTurn = a.myTurn ∧ b.messagePatterns = a.messagePatterns ∧
  b.patternPosition = a.patternPosition ∧ b.cipherstates = a.cipherstates

/-- Fields a read-path token step can never change (everything except the
symmetric state and the remote-key buffers). -/
def readFrame (a b : HandshakeState) : Prop :=
  b.s = a.s ∧ b.e = a.e ∧ b.rng = a.rng ∧ b.psks = a.psks ∧ b.initiator = a.initiator ∧
  b.isPskHandshake = a.isPskHandshake ∧ b.fixedEphemeral = a.fixedEphemeral ∧
  b.myTurn = a.myTurn ∧ b.messagePatterns = a.messagePatterns ∧
  b.patternPosition = a.patternPosition ∧ b.cipherstates = a.cipherstates

theorem writeFrame_refl (a : HandshakeState) : writeFrame a a := by
  simp [writeFrame]

theorem writeFrame_trans {a b c : HandshakeState} (h1 : writeFrame a b) (h2 : writeFrame b c) :
    writeFrame a c := by
  obtain ⟨x1, x2, x3, x4, x5, x6, x7, x8, x9, x10, x11⟩ := h1
  obtain ⟨y1, y2, y3, y4, y5, y6, y7, y8, y9, y10, y11⟩ := h2
  exact ⟨y1.trans x1, y2.trans x2, y3.trans x3, y4.trans x4, y5.trans x5, y6.trans x6,
         y7.trans x7, y8.trans x8, y9.trans x9, y10.trans x10, y11.trans x11⟩

theorem readFrame_refl (a : HandshakeState) : readFrame a a := by
  simp [readFrame]

theorem readFrame_trans {a b c : HandshakeState} (h1 : readFrame a b) (h2 : readFrame b c) :
    readFrame a c := by
  obtain ⟨x1, x2, x3, x4, x5, x6, x7, x8, x9, x10, x11⟩ := h1
  obtain ⟨y1, y2, y3, y4, y5, y6, y7, y8, y9, y10, y11⟩ := h2
  exact ⟨y1.trans x1, y2.trans x2, y3.trans x3, y4.trans x4, y5.trans x5, y6.trans x6,
         y7.trans x7, y8.trans x8, y9.trans x9, y10.trans x10, y11.trans x11⟩

theorem processWriteToken_frame_ok {st : HandshakeState} {msg : Bytes} {cap : Nat} {t : Token}
    {m2 : Bytes} {st2 : HandshakeState}
    (h : processWriteToken st msg cap t = StepResult.ok m2 st2) :
    writeFrame st st2 ∧ (st.e.onFlag = true → st2.e.onFlag = true) := by
  cases t <;> simp only [processWriteToken, dhTokenWrite, dhArgsWrite] at h <;>
    (repeat' split at h) <;> cases h <;> simp [writeFrame, Toggle.enable]

theorem processWriteToken_frame_fail {st : HandshakeState} {msg : Bytes} {cap : Nat} {t : Token}
    {err : NoiseError} {st2 : HandshakeState}
    (h : processWriteToken st msg cap t = StepResult.fail err st2) : st2 = st := by
  cases t <;> simp only [processWriteToken, dhTokenWrite, dhArgsWrite] at h <;>
    (repeat' split at h) <;> cases h <;> rfl

theorem processWriteTokens_frame (ts : List Token) (st : HandshakeState) (msg : Bytes) (cap : Nat) :
    (∀ m2 st2, processWriteTokens st msg cap ts = StepResult.ok m2 st2 →
      writeFrame st st2 ∧ (st.e.onFlag = true → st2.e.onFlag = true)) ∧
    (∀ err st2, processWriteTokens st msg cap ts = StepResult.fail err st2 →
      writeFrame st st2 ∧ (st.e.onFlag = true → st2.e.onFlag = true)) := by
  induction ts generalizing st msg with
  | nil =>
    constructor
    · intro m2 st2 h
      simp only [processWriteTokens] at h
      cases h
      exact ⟨writeFrame_refl st, fun hh => hh⟩
    · intro err st2 h
      simp only [processWriteTokens] at h
      cases h
  | cons t ts ih =>
    constructor
    · intro m2 st2 h
      simp only [processWriteTokens] at h
      cases hh : processWriteToken st msg cap t <;> rw [hh] at h
      case ok msgB stB =>
        have h1 := processWriteToken_frame_ok hh
        have h2 := (ih stB msgB).1 m2 st2 h
        exact ⟨writeFrame_trans h1.1 h2.1, fun hf => h2.2 (h1.2 hf)⟩
      case fail errB stB => cases h
      case abort => cases h
    · intro err st2 h
      simp only [processWriteTokens] at h
      cases hh : processWriteToken st msg cap t <;> rw [hh] at h
      case ok msgB stB =>
        have h1 := processWriteToken_frame_ok hh
        have h2 := (ih stB msgB).2 err st2 h
        exact ⟨writeFrame_trans h1.1 h2.1, fun hf => h2.2 (h1.2 hf)⟩
      case fail errB stB =>
        cases h
        have h1 := processWriteToken_frame_fail hh
        subst h1
        exact ⟨writeFrame_refl _, fun hh2 => hh2⟩
      case abort => cases h

theorem processReadToken_frame_ok {st : HandshakeState} {ptr : Bytes} {t : Token}
    {p2 : Bytes} {st2 : HandshakeState}
    (h : processReadToken st ptr t = StepResult.ok p2 st2) :
    readFrame st st2 ∧ (st.rs.onFlag = true → st2.rs.onFlag = true) ∧
    (st.re.onFlag = true → st2.re.onFlag = true) := by
  cases t <;> simp only [processReadToken, dhTokenRead, dhArgsRead] at h <;>
    (repeat' split at h) <;> cases h <;> simp [readFrame, Toggle.enable]

theorem processReadToken_frame_fail {st : HandshakeState} {ptr : Bytes} {t : Token}
    {err : NoiseError} {st2 : HandshakeState}
    (h : processReadToken st ptr t = StepResult.fail err st2) : st2 = st := by
  cases t <;> simp only [processReadToken, dhTokenRead, dhArgsRead] at h <;>
    (repeat' split at h) <;> cases h <;> rfl

theorem processReadTokens_frame (ts : List Token) (st : HandshakeState) (ptr : Bytes) :
    (∀ p2 st2, processReadTokens st ptr ts = StepResult.ok p2 st2 →
      readFrame st st2 ∧ (st.rs.onFlag = true → st2.rs.onFlag = true) ∧
      (st.re.onFlag = true → st2.re.onFlag = true)) ∧
    (∀ err st2, processReadTokens st ptr ts = StepResult.fail err st2 →
      readFrame st st2 ∧ (st.rs.onFlag = true → st2.rs.onFlag = true) ∧
      (st.re.onFlag = true → st2.re.onFlag = true)) := by
  induction ts generalizing st ptr with
  | nil =>
    constructor
    · intro p2 st2 h
      simp only [processReadTokens] at h
      cases h
      exact ⟨readFrame_refl st, fun hh => hh, fun hh => hh⟩
    · intro err st2 h
      simp only [processReadTokens] at h
      cases h
  | cons t ts ih =>
    constructor
    · intro p2 st2 h
      simp only [processReadTokens] at h
      cases hh : processReadToken st ptr t <;> rw [hh] at h
      case ok ptrB stB =>
        have h1 := processReadToken_frame_ok hh
        have h2 := (ih stB ptrB).1 p2 st2 h
        exact ⟨readFrame_trans h1.1 h2.1, fun hf => h2.2.1 (h1.2.1 hf),
               fun hf => h2.2.2 (h1.2.2 hf)⟩
      case fail errB stB => cases h
      case abort => cases h
    · intro err st2 h
      simp only [processReadTokens] at h
      cases hh : processReadToken st ptr t <;> rw [hh] at h
      case ok ptrB stB =>
        have h1 := processReadToken_frame_ok hh
        have h2 := (ih stB ptrB).2 err st2 h
        exact ⟨readFrame_trans h1.1 h2.1, fun hf => h2.2.1 (h1.2.1 hf),
               fun hf => h2.2.2 (h1.2.2 hf)⟩
      case fail errB stB =>
        cases h
        have h1 := processReadToken_frame_fail hh
        subst h1
        exact ⟨readFrame_refl _, fun hh2 => hh2, fun hh2 => hh2⟩
      case abort => cases h

/-! ## Wrapper-level frame lemmas -/

theorem innerWrite_fail_frame {st : HandshakeState} {payload : Bytes} {cap : Nat}
    {err : NoiseError} {st2 : HandshakeState}
    (h : innerWrite st payload cap = StepResult.fail err st2) :
    writeFrame st st2 ∧ (st.e.onFlag = true → st2.e.onFlag = true) := by
  simp only [innerWrite] at h
  repeat' split at h
  all_goals try (cases h)
  all_goals try (exact ⟨writeFrame_refl _, fun hx => hx⟩)
  all_goals try (have hT := (processWriteTokens_frame _ st [] cap).1 _ _ (by assumption))
  all_goals try (have hT := (processWriteTokens_frame _ st [] cap).2 _ _ (by assumption))
  all_goals exact ⟨hT.1, hT.2⟩

theorem innerRead_fail_frame {st : HandshakeState} {message : Bytes}
    {err : NoiseError} {st2 : HandshakeState}
    (h : innerRead st message = StepResult.fail err st2) :
    readFrame st st2 ∧ (st.rs.onFlag = true → st2.rs.onFlag = true) ∧
    (st.re.onFlag = true → st2.re.onFlag = true) := by
  simp only [innerRead] at h
  repeat' split at h
  all_goals try (cases h)
  all_goals try (exact ⟨readFrame_refl _, fun hx => hx, fun hx => hx⟩)
  all_goals try (have hT := (processReadTokens_frame _ st message).1 _ _ (by assumption))
  all_goals try (have hT := (processReadTokens_frame _ st message).2 _ _ (by assumption))
  all_goals exact ⟨hT.1, hT.2.1, hT.2.2⟩

/-! ## Concrete sample states shared by witnesses and counterexamples -/

/-- An all-zero remote-key buffer of the source's MAXDHLEN size. -/
def zerosBuf : Bytes := List.replicate MAXDHLEN 0

/-- A remote-static buffer holding a peer's public key followed by zeros. -/
def pubBuf (sk : Nat) : Bytes := dhPubkey sk ++ List.replicate (MAXDHLEN - dhLen) 0

/-- A psk array with all ten slots empty. -/
def noPsks : List (Option Bytes) := List.replicate 10 none

/-- Uniform builder-style setup: a side with its own static keypair on, a
fresh (off) ephemeral slot, the peer's static public key pre-shared in rs, and
an empty re buffer. -/
def mkSide (initiator : Bool) (skSelf skPeer seed : Nat) (choice : HandshakeChoice)
    (psks : List (Option Bytes)) (prologue name : Bytes) : POutcome HandshakeState :=
  HandshakeState.new seed (Toggle.mkOn ⟨skSelf⟩) (Toggle.mkOff ⟨0⟩) false
    (Toggle.mkOn (pubBuf skPeer)) (Toggle.mkOff zerosBuf) initiator name choice psks prologue

/-- A throwaway handshake state (used only as the default of a total
extractor below). -/
def dummyState : HandshakeState :=
  { rng := 0, sym := SymmetricState.initializeSym [], cipherstates := (⟨[], 0⟩, ⟨[], 0⟩),
    s := Toggle.mkOff ⟨0⟩, e := Toggle.mkOff ⟨0⟩, fixedEphemeral := false,
    rs := Toggle.mkOff [], re := Toggle.mkOff [], initiator := false,
    isPskHandshake := false, psks := [], myTurn := false, messagePatterns := [],
    patternPosition := 0 }

/-- Total extractor from a construction outcome. -/
def POutcome.getState : POutcome HandshakeState → HandshakeState
  | POutcome.ok st => st
  | _ => dummyState

/-- Lockstep driver: the first side writes with an empty payload into a
maximum-size buffer, the second reads the produced message; roles then swap. -/
def runEx : Nat → HandshakeState → HandshakeState → Option (HandshakeState × HandshakeState)
  | 0, w, r => some (w, r)
  | Nat.succ k, w, r =>
    match writeHandshakeMessage w [] 65535 with
    | StepResult.ok res w2 =>
      match readHandshakeMessage r res.2 with
      | StepResult.ok _ r2 => runEx k r2 w2
      | _ => none
    | _ => none

/-- A concrete freshly constructed Noise_NN initiator. -/
def nnInitSt : HandshakeState :=
  POutcome.getState (mkSide true 3 5 100 ⟨HandshakePattern.NN, []⟩ noPsks [7] [1, 2])

/-- A concrete freshly constructed Noise_NN responder. -/
def nnRespSt : HandshakeState :=
  POutcome.getState (mkSide false 5 3 200 ⟨HandshakePattern.NN, []⟩ noPsks [7] [1, 2])

/-- The initiator's state after the concrete Noise_NN handshake completes. -/
def nnDoneInit : HandshakeState :=
  match runEx 2 nnInitSt nnRespSt with
  | some p => p.1
  | none => dummyState

/-! ## C4 — rollback on error -/

/-- C4: whenever write_handshake_message or read_handshake_message returns an
error, the symmetric state equals its pre-call value (it is restored from the
pre-call checkpoint, which snapshots the whole symmetric state), so
get_handshake_hash() is unchanged, and pattern_position is not advanced. -/
theorem c4_error_rollback (st : HandshakeState) (payload message : Bytes) (cap : Nat) :
    (∀ err st2, writeHandshakeMessage st payload cap = StepResult.fail err st2 →
      st2.sym = st.sym ∧ st2.patternPosition = st.patternPosition ∧
      getHandshakeHash st2 = getHandshakeHash st) ∧
    (∀ err st2, readHandshakeMessage st message = StepResult.fail err st2 →
      st2.sym = st.sym ∧ st2.patternPosition = st.patternPosition ∧
      getHandshakeHash st2 = getHandshakeHash st) := by
  constructor
  · intro err st2 h
    simp only [writeHandshakeMessage] at h
    cases hh : innerWrite st payload cap <;> rw [hh] at h <;> cases h
    have hf := (innerWrite_fail_frame hh).1
    exact ⟨rfl, hf.2.2.2.2.2.2.2.2.2.1, rfl⟩
  · intro err st2 h
    simp only [readHandshakeMessage] at h
    cases hh : innerRead st message <;> rw [hh] at h <;> cases h
    have hf := (innerRead_fail_frame hh).1
    exact ⟨rfl, hf.2.2.2.2.2.2.2.2.2.1, rfl⟩

/-- Witness for C4 at a concrete input: a responder whose turn it is not
produces an error, and the rollback equalities hold there. -/
theorem c4_error_rollback_witness :
    writeHandshakeMessage nnRespSt [] 65535 =
      StepResult.fail (NoiseError.state StateProblem.notTurnToWrite) nnRespSt ∧
    (nnRespSt.sym = nnRespSt.sym ∧ nnRespSt.patternPosition = nnRespSt.patternPosition ∧
      getHandshakeHash nnRespSt = getHandshakeHash nnRespSt) :=
  ⟨by decide, (c4_error_rollback nnRespSt [] [] 65535).1
    (NoiseError.state StateProblem.notTurnToWrite) nnRespSt (by decide)⟩

/-! ## C3 — turn discipline -/

/-- C3 (amended): my_turn equals `initiator` at creation and toggles exactly on
successful calls (write clears it, read sets it, errors leave it unchanged);
an out-of-turn write fails with NotTurnToWrite leaving the state exactly
unchanged.  The read path, however, performs no turn check at all (see the
counterexample: an out-of-turn read is processed normally). -/
theorem c3_turn_discipline :
    (∀ rng s e fe rs re ini name hs psks pro st,
      HandshakeState.new rng s e fe rs re ini name hs psks pro = POutcome.ok st →
      st.myTurn = ini) ∧
    (∀ st payload cap, st.myTurn = false →
      writeHandshakeMessage st payload cap =
        StepResult.fail (NoiseError.state StateProblem.notTurnToWrite) st) ∧
    (∀ st payload cap res st2, writeHandshakeMessage st payload cap = StepResult.ok res st2 →
      st2.myTurn = false) ∧
    (∀ st message res st2, readHandshakeMessage st message = StepResult.ok res st2 →
      st2.myTurn = true) ∧
    (∀ st payload cap err st2, writeHandshakeMessage st payload cap = StepResult.fail err st2 →
      st2.myTurn = st.myTurn) ∧
    (∀ st message err st2, readHandshakeMessage st message = StepResult.fail err st2 →
      st2.myTurn = st.myTurn) := by
  refine ⟨?_, ?_, ?_, ?_, ?_, ?_⟩
  · intro rng s e fe rs re ini name hs psks pro st h
    simp only [HandshakeState.new] at h
    repeat' split at h
    all_goals cases h
    rfl
  · intro st payload cap h
    have hi : innerWrite st payload cap =
        StepResult.fail (NoiseError.state StateProblem.notTurnToWrite) st := by
      simp [innerWrite, h]
    simp [writeHandshakeMessage, hi]
  · intro st payload cap res st2 h
    simp only [writeHandshakeMessage] at h
    cases hh : innerWrite st payload cap <;> rw [hh] at h <;> cases h
    simp only [innerWrite] at hh
    repeat' split at hh
    all_goals cases hh
    all_goals rfl
  · intro st message res st2 h
    simp only [readHandshakeMessage] at h
    cases hh : innerRead st message <;> rw [hh] at h <;> cases h
    simp only [innerRead] at hh
    repeat' split at hh
    all_goals cases hh
    all_goals rfl
  · intro st payload cap err st2 h
    simp only [writeHandshakeMessage] at h
    cases hh : innerWrite st payload cap <;> rw [hh] at h <;> cases h
    exact (innerWrite_fail_frame hh).1.2.2.2.2.2.2.2.1
  · intro st message err st2 h
    simp only [readHandshakeMessage] at h
    cases hh : innerRead st message <;> rw [hh] at h <;> cases h
    exact (innerRead_fail_frame hh).1.2.2.2.2.2.2.2.1

/-- Counterexample for C3 as stated: the claim says a read made when my_turn is
true returns the analogous turn error without mutating state; on the code, a
fresh Noise_NN initiator (my_turn = true) that calls read_handshake_message has
the message processed normally — the call succeeds and advances
pattern_position. -/
theorem c3_counterexample_read_no_turn_check :
    nnInitSt.myTurn = true ∧
    (readHandshakeMessage nnInitSt [9, 0]).isOk = true ∧
    (match readHandshakeMessage nnInitSt [9, 0] with
     | StepResult.ok _ st2 => st2.patternPosition
     | _ => 0) = nnInitSt.patternPosition + 1 := by
  decide

/-- Witness for C3 at concrete inputs: a fresh NN initiator has my_turn set,
and its responder — whose turn it is not — gets NotTurnToWrite from write with
the state unchanged. -/
theorem c3_turn_discipline_witness :
    nnRespSt.myTurn = false ∧
    writeHandshakeMessage nnRespSt [] 65535 =
      StepResult.fail (NoiseError.state StateProblem.notTurnToWrite) nnRespSt :=
  ⟨by decide, c3_turn_discipline.2.1 nnRespSt [] 65535 (by decide)⟩

/-! ## C5 — panic on read after finished -/

/-- C5: the claim (and spec §7) says no public operation panics on
user-supplied input, read after is_finished() included, returning a Result
error instead.  On the code, _read_handshake_message has no finished check and
indexes message_patterns[pattern_position] out of bounds: after a completed
Noise_NN handshake, read panics (abort) where write correctly returns
HandshakeAlreadyFinished. -/
theorem c5_read_after_finished_panics :
    isFinished nnDoneInit = true ∧
    readHandshakeMessage nnDoneInit [] = StepResult.abort ∧
    writeHandshakeMessage nnDoneInit [] 65535 =
      StepResult.fail (NoiseError.state StateProblem.handshakeAlreadyFinished) nnDoneInit := by
  decide

/-! ## Success-path frame lemmas and slot monotonicity -/

theorem innerWrite_ok_frame {st : HandshakeState} {payload : Bytes} {cap : Nat}
    {res : Nat × Bytes} {st2 : HandshakeState}
    (h : innerWrite st payload cap = StepResult.ok res st2) :
    st2.s = st.s ∧ st2.rs = st.rs ∧ st2.re = st.re ∧
    (st.e.onFlag = true → st2.e.onFlag = true) ∧
    st2.patternPosition = st.patternPosition ∧ st2.messagePatterns = st.messagePatterns ∧
    st2.psks = st.psks := by
  simp only [innerWrite] at h
  repeat' split at h
  all_goals cases h
  all_goals
    have hT := (processWriteTokens_frame _ st [] cap).1 _ _ (by assumption)
  all_goals
    exact ⟨hT.1.1, hT.1.2.1, hT.1.2.2.1, hT.2, hT.1.2.2.2.2.2.2.2.2.2.1,
           hT.1.2.2.2.2.2.2.2.2.1, hT.1.2.2.2.1⟩

theorem innerRead_ok_frame {st : HandshakeState} {message : Bytes}
    {res : Nat × Bytes} {st2 : HandshakeState}
    (h : innerRead st message = StepResult.ok res st2) :
    st2.s = st.s ∧ st2.e = st.e ∧
    (st.rs.onFlag = true → st2.rs.onFlag = true) ∧
    (st.re.onFlag = true → st2.re.onFlag = true) ∧
    st2.patternPosition = st.patternPosition ∧ st2.messagePatterns = st.messagePatterns ∧
    st2.psks = st.psks := by
  simp only [innerRead] at h
  repeat' split at h
  all_goals cases h
  all_goals
    have hT := (processReadTokens_frame _ st message).1 _ _ (by assumption)
  all_goals
    exact ⟨hT.1.1, hT.1.2.1, hT.2.1, hT.2.2, hT.1.2.2.2.2.2.2.2.2.2.1,
           hT.1.2.2.2.2.2.2.2.2.1, hT.1.2.2.2.1⟩

/-- The four Toggle slots of a handshake only ever gain their flag. -/
def slotsMono (a b : HandshakeState) : Prop :=
  (a.s.onFlag = true → b.s.onFlag = true) ∧ (a.e.onFlag = true → b.e.onFlag = true) ∧
  (a.rs.onFlag = true → b.rs.onFlag = true) ∧ (a.re.onFlag = true → b.re.onFlag = true)

theorem getRemoteStatic_isSome (st : HandshakeState) :
    (getRemoteStatic st).isSome = st.rs.onFlag := by
  cases h : st.rs.onFlag <;> simp [getRemoteStatic, Toggle.get, h]

/-- C10: the Toggle slots are monotone.  Toggle::enable is the only mutator of
the flag and it only sets it (the constructors fix it at creation; is_on and
as_option_ref are observers); across every mutating handshake operation
(write, read, set_psk), whether it succeeds or errors, an enabled slot stays
enabled — in particular once get_remote_static() is Some it stays Some on
every later call. -/
theorem c10_toggle_monotone :
    (∀ (α : Type) (t : Toggle α),
      (Toggle.enable t).onFlag = true ∧ (Toggle.enable t).inner = t.inner ∧
      (∀ a : α, (Toggle.mkOn a).onFlag = true ∧ (Toggle.mkOff a).onFlag = false)) ∧
    (∀ st payload cap res st2, writeHandshakeMessage st payload cap = StepResult.ok res st2 →
      slotsMono st st2 ∧
      ((getRemoteStatic st).isSome = true → (getRemoteStatic st2).isSome = true)) ∧
    (∀ st payload cap err st2, writeHandshakeMessage st payload cap = StepResult.fail err st2 →
      slotsMono st st2 ∧
      ((getRemoteStatic st).isSome = true → (getRemoteStatic st2).isSome = true)) ∧
    (∀ st message res st2, readHandshakeMessage st message = StepResult.ok res st2 →
      slotsMono st st2 ∧
      ((getRemoteStatic st).isSome = true → (getRemoteStatic st2).isSome = true)) ∧
    (∀ st message err st2, readHandshakeMessage st message = StepResult.fail err st2 →
      slotsMono st st2 ∧
      ((getRemoteStatic st).isSome = true → (getRemoteStatic st2).isSome = true)) ∧
    (∀ st loc key st2, setPsk st loc key = Except.ok st2 →
      st2.s = st.s ∧ st2.e = st.e ∧ st2.rs = st.rs ∧ st2.re = st.re) := by
  refine ⟨?_, ?_, ?_, ?_, ?_, ?_⟩
  · intro α t
    exact ⟨rfl, rfl, fun a => ⟨rfl, rfl⟩⟩
  · intro st payload cap res st2 h
    simp only [writeHandshakeMessage] at h
    cases hh : innerWrite st payload cap <;> rw [hh] at h <;> cases h
    have hf := innerWrite_ok_frame hh
    refine ⟨⟨fun hx => by simpa [hf.1] using hx, hf.2.2.2.1,
            fun hx => by simpa [hf.2.1] using hx, fun hx => by simpa [hf.2.2.1] using hx⟩, ?_⟩
    intro hx
    rw [getRemoteStatic_isSome] at hx ⊢
    show _ = _
    rw [hf.2.1]
    exact hx
  · intro st payload cap err st2 h
    simp only [writeHandshakeMessage] at h
    cases hh : innerWrite st payload cap <;> rw [hh] at h <;> cases h
    have hf := innerWrite_fail_frame hh
    refine ⟨⟨fun hx => by simpa [hf.1.1] using hx, hf.2,
            fun hx => by simpa [hf.1.2.1] using hx, fun hx => by simpa [hf.1.2.2.1] using hx⟩, ?_⟩
    intro hx
    rw [getRemoteStatic_isSome] at hx ⊢
    show _ = _
    rw [hf.1.2.1]
    exact hx
  · intro st message res st2 h
    simp only [readHandshakeMessage] at h
    cases hh : innerRead st message <;> rw [hh] at h <;> cases h
    have hf := innerRead_ok_frame hh
    refine ⟨⟨fun hx => by simpa [hf.1] using hx, fun hx => by simpa [hf.2.1] using hx,
            hf.2.2.1, hf.2.2.2.1⟩, ?_⟩
    intro hx
    rw [getRemoteStatic_isSome] at hx ⊢
    exact hf.2.2.1 hx
  · intro st message err st2 h
    simp only [readHandshakeMessage] at h
    cases hh : innerRead st message <;> rw [hh] at h <;> cases h
    have hf := innerRead_fail_frame hh
    refine ⟨⟨fun hx => by simpa [hf.1.1] using hx, fun hx => by simpa [hf.1.2.1] using hx,
            hf.2.1, hf.2.2⟩, ?_⟩
    intro hx
    rw [getRemoteStatic_isSome] at hx ⊢
    exact hf.2.1 hx
  · intro st loc key st2 h
    simp only [setPsk] at h
    split at h
    · cases h
    · cases h
      exact ⟨rfl, rfl, rfl, rfl⟩

/-- Witness for C10 at a concrete input: the NN responder's remote-ephemeral
slot is off before and on after successfully reading message 1, and a state
with rs on keeps get_remote_static() Some across a successful write. -/
theorem c10_toggle_monotone_witness :
    (getRemoteStatic nnInitSt).isSome = true ∧
    (match writeHandshakeMessage nnInitSt [] 65535 with
     | StepResult.ok _ st2 => (getRemoteStatic st2).isSome
     | _ => false) = true := by
  have h1 : (getRemoteStatic nnInitSt).isSome = true := by decide
  have hOk : (writeHandshakeMessage nnInitSt [] 65535).isOk = true := by decide
  refine ⟨h1, ?_⟩
  cases hh : writeHandshakeMessage nnInitSt [] 65535 with
  | ok res st2 => exact (c10_toggle_monotone.2.1 nnInitSt [] 65535 res st2 hh).2 h1
  | fail err st2 => rw [hh] at hOk; simp [StepResult.isOk] at hOk
  | abort => rw [hh] at hOk; simp [StepResult.isOk] at hOk

/-! ## C6 — output bounds: chunk-growth, write-validity and retry lemmas -/

theorem processWriteToken_chunk {st : HandshakeState} {msg : Bytes} {cap : Nat} {t : Token}
    {m2 : Bytes} {st2 : HandshakeState}
    (h : processWriteToken st msg cap t = StepResult.ok m2 st2) : ∃ c, m2 = msg ++ c := by
  cases t <;> simp only [processWriteToken, dhTokenWrite, dhArgsWrite] at h <;>
    (repeat' split at h) <;> cases h <;>
    first
    | exact ⟨_, rfl⟩
    | exact ⟨[], by simp⟩

theorem processWriteTokens_chunk (ts : List Token) {st : HandshakeState} {msg : Bytes} {cap : Nat}
    {m2 : Bytes} {st2 : HandshakeState}
    (h : processWriteTokens st msg cap ts = StepResult.ok m2 st2) : ∃ c, m2 = msg ++ c := by
  induction ts generalizing st msg with
  | nil =>
    simp only [processWriteTokens] at h
    cases h
    exact ⟨[], by simp⟩
  | cons t ts ih =>
    simp only [processWriteTokens] at h
    cases hh : processWriteToken st msg cap t <;> rw [hh] at h
    case ok msgB stB =>
      obtain ⟨c1, hc1⟩ := processWriteToken_chunk hh
      obtain ⟨c2, hc2⟩ := ih h
      subst hc1
      exact ⟨c1 ++ c2, by simpa [List.append_assoc] using hc2⟩
    case fail errB stB => cases h
    case abort => cases h

/-- The write-relevant flags of a handshake state: the four slot flags and the
key-installed flag. -/
structure WFlags where
  sF : Bool
  eF : Bool
  rsF : Bool
  reF : Bool
  key : Bool
deriving DecidableEq

/-- The write-relevant flags read off a handshake state. -/
def WFlags.ofState (st : HandshakeState) : WFlags :=
  ⟨st.s.onFlag, st.e.onFlag, st.rs.onFlag, st.re.onFlag, st.sym.hasKey⟩

/-- How one write-side token updates the flags. -/
def wStep (isPsk : Bool) (f : WFlags) : Token → WFlags
  | Token.e => ⟨f.sF, true, f.rsF, f.reF, f.key || isPsk⟩
  | Token.s => f
  | _ => ⟨f.sF, f.eF, f.rsF, f.reF, true⟩

/-- Whether one write-side token can process successfully (capacity aside)
under the given flags and psk material. -/
def wCond (psks : List (Option Bytes)) (f : WFlags) : Token → Bool
  | Token.e => true
  | Token.s => f.sF
  | Token.psk n =>
    match psks.get? n with
    | some (some _) => true
    | _ => false
  | t =>
    match dhArgsWrite t with
    | some ab => (!ab.1 || f.sF) && (ab.1 || f.eF) && (!ab.2 || f.rsF) && (ab.2 || f.reF)
    | none => false

/-- How one token updates the key-installed flag on the write side. -/
def keyStep (isPsk key : Bool) : Token → Bool
  | Token.e => key || isPsk
  | Token.s => key
  | _ => true

/-- The number of wire bytes one write-side token emits, given the
key-installed flag. -/
def tokLen (key : Bool) : Token → Nat
  | Token.e => dhLen
  | Token.s => dhLen + (if key then TAGLEN else 0)
  | _ => 0

/-- Static success analysis for a write-side token list. -/
def wOkF (isPsk : Bool) (psks : List (Option Bytes)) : WFlags → List Token → Bool
  | _, [] => true
  | f, t :: ts => wCond psks f t && wOkF isPsk psks (wStep isPsk f t) ts

/-- Total number of wire bytes a write-side token list emits. -/
def wLen (isPsk key : Bool) : List Token → Nat
  | [] => 0
  | t :: ts => tokLen key t + wLen isPsk (keyStep isPsk key t) ts

/-- Iterated flag update over a token list. -/
def wStepList (isPsk : Bool) : WFlags → List Token → WFlags
  | f, [] => f
  | f, t :: ts => wStepList isPsk (wStep isPsk f t) ts

theorem wStep_key (isPsk : Bool) (f : WFlags) (t : Token) :
    (wStep isPsk f t).key = keyStep isPsk f.key t := by
  cases t <;> rfl

theorem pubkey_len (d : DhKey) : d.pubkey.length = 2 := by
  simp [DhKey.pubkey, dhPubkey]

theorem encryptAndMixHash_len (sym : SymmetricState) (pt : Bytes) :
    (sym.encryptAndMixHash pt).1.length = pt.length + (if sym.hasKey then TAGLEN else 0) := by
  by_cases hk : sym.hasKey = true <;>
    simp [SymmetricState.encryptAndMixHash, aeadEncrypt, tagBytes, TAGLEN, hk]

theorem encryptAndMixHash_hasKey (sym : SymmetricState) (pt : Bytes) :
    (sym.encryptAndMixHash pt).2.hasKey = sym.hasKey := by
  by_cases hk : sym.hasKey = true <;>
    simp [SymmetricState.encryptAndMixHash, SymmetricState.mixHash, hk]

theorem processWriteToken_ok_of {st : HandshakeState} {msg : Bytes} {cap : Nat} {t : Token}
    (hv : wCond st.psks (WFlags.ofState st) t = true)
    (hc : msg.length + tokLen st.sym.hasKey t ≤ cap) :
    ∃ c st2, processWriteToken st msg cap t = StepResult.ok (msg ++ c) st2 ∧
      c.length = tokLen st.sym.hasKey t ∧
      WFlags.ofState st2 = wStep st.isPskHandshake (WFlags.ofState st) t ∧
      st2.isPskHandshake = st.isPskHandshake ∧ st2.psks = st.psks := by
  cases t with
  | e =>
    simp only [tokLen, dhLen] at hc ⊢
    by_cases hfe : st.fixedEphemeral <;> by_cases hps : st.isPskHandshake <;>
      simp only [processWriteToken, hfe, hps, if_true, if_false, ite_true, ite_false,
        DhKey.pubLen, dhLen] <;>
      rw [if_neg (by omega)] <;>
      refine ⟨_, _, rfl, ?_, ?_, rfl, rfl⟩ <;>
      simp [DhKey.pubkey, dhPubkey, dhLen, SymmetricState.mixKey, SymmetricState.mixHash,
        Toggle.enable, wStep, hps, WFlags.ofState]
  | s =>
    simp only [wCond, WFlags.ofState] at hv
    simp only [tokLen, dhLen, TAGLEN] at hc ⊢
    have hknot : ¬ (st.s.isOn = false) := by simp [Toggle.isOn, hv]
    have hp := pubkey_len st.s.inner
    have hel := encryptAndMixHash_len st.sym st.s.inner.pubkey
    have hek := encryptAndMixHash_hasKey st.sym st.s.inner.pubkey
    simp only [processWriteToken]
    rw [if_neg hknot]
    rw [if_neg (show ¬ (cap < msg.length + st.s.inner.pubLen) from by
      simp only [DhKey.pubLen, dhLen]
      split at hc <;> omega)]
    rw [if_neg (show ¬ (cap < msg.length +
        (st.sym.encryptAndMixHash st.s.inner.pubkey).1.length) from by
      rw [hel, hp]
      simp only [TAGLEN]
      split at hc <;> rename_i hcs
      · rw [if_pos hcs]; omega
      · rw [if_neg hcs]; omega)]
    refine ⟨_, _, rfl, ?_, ?_, rfl, rfl⟩
    · rw [hel, hp]
      simp only [TAGLEN]
    · simp [WFlags.ofState, wStep, hek]
  | psk n =>
    simp only [wCond] at hv
    simp only [tokLen] at hc ⊢
    cases hg : st.psks.get? n with
    | none => rw [hg] at hv; cases hv
    | some o =>
      cases o with
      | none => rw [hg] at hv; cases hv
      | some psk =>
        simp only [processWriteToken, hg]
        refine ⟨[], { st with sym := st.sym.mixKeyAndHash psk }, ?_, ?_, ?_, ?_, ?_⟩
        · simp
        · simp [tokLen]
        · simp [SymmetricState.mixKeyAndHash, SymmetricState.mixHash, wStep, WFlags.ofState]
        · rfl
        · rfl
  | dhee =>
    simp only [wCond, dhArgsWrite, WFlags.ofState] at hv
    simp only [processWriteToken, dhTokenWrite, dhArgsWrite, HandshakeState.dh]
    rw [if_pos (by
      simp only [Toggle.isOn, Bool.not_false, Bool.not_true, Bool.true_or, Bool.false_or,
        Bool.or_true, Bool.and_eq_true] at hv ⊢
      simp_all)]
    refine ⟨[], { st with sym := st.sym.mixKey ((st.e.inner.dhOut st.re.inner).take st.dhl) }, ?_, ?_, ?_, ?_, ?_⟩
    · simp
    · simp [tokLen]
    · simp [SymmetricState.mixKey, wStep, WFlags.ofState]
    · rfl
    · rfl
  | dhes =>
    simp only [wCond, dhArgsWrite, WFlags.ofState] at hv
    simp only [processWriteToken, dhTokenWrite, dhArgsWrite, HandshakeState.dh]
    rw [if_pos (by
      simp only [Toggle.isOn, Bool.not_false, Bool.not_true, Bool.true_or, Bool.false_or,
        Bool.or_true, Bool.and_eq_true] at hv ⊢
      simp_all)]
    refine ⟨[], { st with sym := st.sym.mixKey ((st.e.inner.dhOut st.rs.inner).take st.dhl) }, ?_, ?_, ?_, ?_, ?_⟩
    · simp
    · simp [tokLen]
    · simp [SymmetricState.mixKey, wStep, WFlags.ofState]
    · rfl
    · rfl
  | dhse =>
    simp only [wCond, dhArgsWrite, WFlags.ofState] at hv
    simp only [processWriteToken, dhTokenWrite, dhArgsWrite, HandshakeState.dh]
    rw [if_pos (by
      simp only [Toggle.isOn, Bool.not_false, Bool.not_true, Bool.true_or, Bool.false_or,
        Bool.or_true, Bool.and_eq_true] at hv ⊢
      simp_all)]
    refine ⟨[], { st with sym := st.sym.mixKey ((st.s.inner.dhOut st.re.inner).take st.dhl) }, ?_, ?_, ?_, ?_, ?_⟩
    · simp
    · simp [tokLen]
    · simp [SymmetricState.mixKey, wStep, WFlags.ofState]
    · rfl
    · rfl
  | dhss =>
    simp only [wCond, dhArgsWrite, WFlags.ofState] at hv
    simp only [processWriteToken, dhTokenWrite, dhArgsWrite, HandshakeState.dh]
    rw [if_pos (by
      simp only [Toggle.isOn, Bool.not_false, Bool.not_true, Bool.true_or, Bool.false_or,
        Bool.or_true, Bool.and_eq_true] at hv ⊢
      simp_all)]
    refine ⟨[], { st with sym := st.sym.mixKey ((st.s.inner.dhOut st.rs.inner).take st.dhl) }, ?_, ?_, ?_, ?_, ?_⟩
    · simp
    · simp [tokLen]
    · simp [SymmetricState.mixKey, wStep, WFlags.ofState]
    · rfl
    · rfl

theorem processWriteTokens_ok_of (ts : List Token) :
    ∀ (st : HandshakeState) (msg : Bytes) (cap : Nat),
      wOkF st.isPskHandshake st.psks (WFlags.ofState st) ts = true →
      msg.length + wLen st.isPskHandshake st.sym.hasKey ts ≤ cap →
      ∃ m2 st2, processWriteTokens st msg cap ts = StepResult.ok m2 st2 ∧
        m2.length = msg.length + wLen st.isPskHandshake st.sym.hasKey ts ∧
        WFlags.ofState st2 = wStepList st.isPskHandshake (WFlags.ofState st) ts ∧
        st2.isPskHandshake = st.isPskHandshake ∧ st2.psks = st.psks := by
  induction ts with
  | nil =>
    intro st msg cap hv hc
    exact ⟨msg, st, rfl, by simp [wLen], rfl, rfl, rfl⟩
  | cons t ts ih =>
    intro st msg cap hv hc
    simp only [wOkF, Bool.and_eq_true] at hv
    simp only [wLen] at hc ⊢
    obtain ⟨c, stM, heq, hclen, hflags, hpsk, hpsks⟩ :=
      processWriteToken_ok_of hv.1 (show msg.length + tokLen st.sym.hasKey t ≤ cap by omega)
    have hkeyM : stM.sym.hasKey = keyStep st.isPskHandshake st.sym.hasKey t := by
      have := congrArg WFlags.key hflags
      simpa [WFlags.ofState, wStep_key] using this
    have hv2 : wOkF stM.isPskHandshake stM.psks (WFlags.ofState stM) ts = true := by
      rw [hflags, hpsk, hpsks]; exact hv.2
    have hc2 : (msg ++ c).length + wLen stM.isPskHandshake stM.sym.hasKey ts ≤ cap := by
      rw [hpsk, hkeyM]
      simp only [List.length_append, hclen]
      omega
    obtain ⟨m2, st2, heq2, hlen2, hfl2, hpk2, hps2⟩ := ih stM (msg ++ c) cap hv2 hc2
    refine ⟨m2, st2, ?_, ?_, ?_, ?_, ?_⟩
    · simp only [processWriteTokens, heq, heq2]
    · rw [hlen2, hpsk, hkeyM]
      simp only [List.length_append, hclen]
      omega
    · rw [hfl2, hflags, hpsk]
      simp [wStepList]
    · rw [hpk2, hpsk]
    · rw [hps2, hpsks]

theorem processWriteToken_inv {st : HandshakeState} {msg : Bytes} {cap : Nat} {t : Token}
    {m2 : Bytes} {st2 : HandshakeState}
    (h : processWriteToken st msg cap t = StepResult.ok m2 st2) :
    wCond st.psks (WFlags.ofState st) t = true ∧
    m2.length = msg.length + tokLen st.sym.hasKey t ∧
    WFlags.ofState st2 = wStep st.isPskHandshake (WFlags.ofState st) t ∧
    st2.isPskHandshake = st.isPskHandshake ∧ st2.psks = st.psks := by
  cases t <;>
    simp only [processWriteToken, dhTokenWrite, dhArgsWrite, HandshakeState.dh] at h <;>
    (repeat' split at h) <;> cases h <;>
    simp_all [wCond, tokLen, WFlags.ofState, wStep, dhArgsWrite, pubkey_len,
      encryptAndMixHash_len, encryptAndMixHash_hasKey, SymmetricState.mixKey,
      SymmetricState.mixKeyAndHash, SymmetricState.mixHash, Toggle.enable, Toggle.isOn,
      dhLen, TAGLEN]
  all_goals
    (rename_i hq
     split at hq
     · assumption
     · cases hq)

theorem processWriteTokens_inv (ts : List Token) :
    ∀ (st : HandshakeState) (msg : Bytes) (cap : Nat) (m2 : Bytes) (st2 : HandshakeState),
      processWriteTokens st msg cap ts = StepResult.ok m2 st2 →
      wOkF st.isPskHandshake st.psks (WFlags.ofState st) ts = true ∧
      m2.length = msg.length + wLen st.isPskHandshake st.sym.hasKey ts := by
  induction ts with
  | nil =>
    intro st msg cap m2 st2 h
    simp only [processWriteTokens] at h
    cases h
    exact ⟨rfl, by simp [wLen]⟩
  | cons t ts ih =>
    intro st msg cap m2 st2 h
    simp only [processWriteTokens] at h
    cases hh : processWriteToken st msg cap t <;> rw [hh] at h
    case ok msgB stB =>
      obtain ⟨hc1, hl1, hfl, hpk, hps⟩ := processWriteToken_inv hh
      have hkeyB : stB.sym.hasKey = keyStep st.isPskHandshake st.sym.hasKey t := by
        have := congrArg WFlags.key hfl
        simpa [WFlags.ofState, wStep_key] using this
      obtain ⟨hok, hlen⟩ := ih stB msgB cap m2 st2 h
      rw [hfl, hpk, hps] at hok
      rw [hpk, hkeyB] at hlen
      refine ⟨?_, ?_⟩
      · simp only [wOkF, Bool.and_eq_true]
        exact ⟨hc1, hok⟩
      · simp only [wLen]
        omega
    case fail errB stB => cases h
    case abort => cases h

theorem wOkF_mono_e (ts : List Token) :
    ∀ (isPsk : Bool) (psks : List (Option Bytes)) (f g : WFlags),
      g.sF = f.sF → g.rsF = f.rsF → g.reF = f.reF → g.key = f.key →
      (f.eF = true → g.eF = true) →
      wOkF isPsk psks f ts = true → wOkF isPsk psks g ts = true := by
  induction ts with
  | nil => intro _ _ _ _ _ _ _ _ _ h; exact h
  | cons t ts ih =>
    intro isPsk psks f g hs hrs hre hk he h
    simp only [wOkF, Bool.and_eq_true] at h ⊢
    obtain ⟨h1, h2⟩ := h
    constructor
    · cases t <;>
        simp only [wCond, dhArgsWrite, Bool.true_or, Bool.false_or, Bool.not_true,
          Bool.not_false, hs, hrs, hre, Bool.and_eq_true, Bool.true_and, Bool.and_true]
          at h1 ⊢ <;>
        first
        | exact h1
        | exact ⟨he h1.1, h1.2⟩
    · cases t
      case e =>
        exact ih isPsk psks (wStep isPsk f Token.e) (wStep isPsk g Token.e)
          (by simp [wStep, hs]) (by simp [wStep, hrs]) (by simp [wStep, hre])
          (by simp [wStep, hk]) (by simp [wStep]) h2
      case s => exact ih isPsk psks f g hs hrs hre hk he h2
      case psk n =>
        exact ih isPsk psks (wStep isPsk f (Token.psk n)) (wStep isPsk g (Token.psk n))
          (by simp [wStep, hs]) (by simp [wStep, hrs]) (by simp [wStep, hre])
          (by simp [wStep]) (by simpa [wStep] using he) h2
      case dhee =>
        exact ih isPsk psks (wStep isPsk f Token.dhee) (wStep isPsk g Token.dhee)
          (by simp [wStep, hs]) (by simp [wStep, hrs]) (by simp [wStep, hre])
          (by simp [wStep]) (by simpa [wStep] using he) h2
      case dhes =>
        exact ih isPsk psks (wStep isPsk f Token.dhes) (wStep isPsk g Token.dhes)
          (by simp [wStep, hs]) (by simp [wStep, hrs]) (by simp [wStep, hre])
          (by simp [wStep]) (by simpa [wStep] using he) h2
      case dhse =>
        exact ih isPsk psks (wStep isPsk f Token.dhse) (wStep isPsk g Token.dhse)
          (by simp [wStep, hs]) (by simp [wStep, hrs]) (by simp [wStep, hre])
          (by simp [wStep]) (by simpa [wStep] using he) h2
      case dhss =>
        exact ih isPsk psks (wStep isPsk f Token.dhss) (wStep isPsk g Token.dhss)
          (by simp [wStep, hs]) (by simp [wStep, hrs]) (by simp [wStep, hre])
          (by simp [wStep]) (by simpa [wStep] using he) h2

theorem innerWrite_ok_exists {st : HandshakeState} {payload : Bytes} {cap : Nat}
    {tokens : List Token} {msg : Bytes} {st2 : HandshakeState}
    (hTurn : st.myTurn = true)
    (hGet : st.messagePatterns.get? st.patternPosition = some tokens)
    (hTok : processWriteTokens st [] cap tokens = StepResult.ok msg st2)
    (hCap : msg.length + payload.length + TAGLEN ≤ cap)
    (hMax : msg.length + payload.length + TAGLEN ≤ MAXMSGLEN) :
    ∃ res stf, innerWrite st payload cap = StepResult.ok res stf := by
  have hlt : st.patternPosition < st.messagePatterns.length := by
    by_contra hcon
    rw [List.get?_eq_none.mpr (Nat.le_of_not_lt hcon)] at hGet
    cases hGet
  have hctlen := encryptAndMixHash_len st2.sym payload
  have hct2 : (st2.sym.encryptAndMixHash payload).1.length ≤ payload.length + TAGLEN := by
    rw [hctlen]; split <;> omega
  simp only [innerWrite]
  rw [if_neg (by simp [hTurn]), if_neg (Nat.not_le.mpr hlt), hGet]
  dsimp only
  rw [hTok]
  dsimp only
  rw [if_neg (by omega)]
  rw [if_neg (show ¬ (cap < msg.length + (st2.sym.encryptAndMixHash payload).1.length) by omega)]
  rw [if_neg (show ¬ (MAXMSGLEN < (msg ++ (st2.sym.encryptAndMixHash payload).1).length) by
    simp only [List.length_append]
    omega)]
  exact ⟨_, _, rfl⟩


/-- C6 (amended): when the cursor after token processing plus payload length
plus TAGLEN exceeds the output buffer, and likewise when the final message
would exceed MAXMSGLEN, write_handshake_message fails with Input; the
symmetric state (hence the handshake hash), the turn flag and
pattern_position are left unchanged, and a subsequent write of the same
payload with a sufficient buffer succeeds.  (The claim's stronger "the
handshake state is left unchanged" is refuted by the counterexample: the
ephemeral slot may have been regenerated and enabled by the failed call.) -/
theorem c6_write_bounds :
    (∀ st payload cap tokens msg st2,
      st.myTurn = true →
      st.messagePatterns.get? st.patternPosition = some tokens →
      processWriteTokens st [] cap tokens = StepResult.ok msg st2 →
      cap < msg.length + payload.length + TAGLEN →
      writeHandshakeMessage st payload cap =
        StepResult.fail NoiseError.input { st2 with sym := st.sym } ∧
      ({ st2 with sym := st.sym } : HandshakeState).myTurn = st.myTurn ∧
      ({ st2 with sym := st.sym } : HandshakeState).patternPosition = st.patternPosition) ∧
    (∀ st payload cap tokens msg st2,
      st.myTurn = true →
      st.messagePatterns.get? st.patternPosition = some tokens →
      processWriteTokens st [] cap tokens = StepResult.ok msg st2 →
      ¬ (cap < msg.length + payload.length + TAGLEN) →
      ¬ (cap < msg.length + (st2.sym.encryptAndMixHash payload).1.length) →
      MAXMSGLEN < msg.length + (st2.sym.encryptAndMixHash payload).1.length →
      writeHandshakeMessage st payload cap =
        StepResult.fail NoiseError.input { st2 with sym := st.sym }) ∧
    (∀ st payload cap capB tokens msg st2,
      st.myTurn = true →
      st.messagePatterns.get? st.patternPosition = some tokens →
      processWriteTokens st [] cap tokens = StepResult.ok msg st2 →
      msg.length + payload.length + TAGLEN ≤ capB →
      msg.length + payload.length + TAGLEN ≤ MAXMSGLEN →
      ∃ res stg, writeHandshakeMessage { st2 with sym := st.sym } payload capB =
        StepResult.ok res stg) := by
  refine ⟨?_, ?_, ?_⟩
  · intro st payload cap tokens msg st2 hTurn hGet hTok hb
    have hlt : st.patternPosition < st.messagePatterns.length := by
      by_contra hcon
      rw [List.get?_eq_none.mpr (Nat.le_of_not_lt hcon)] at hGet
      cases hGet
    have hF := (processWriteTokens_frame tokens st [] cap).1 _ _ hTok
    have hInner : innerWrite st payload cap = StepResult.fail NoiseError.input st2 := by
      simp only [innerWrite]
      rw [if_neg (by simp [hTurn]), if_neg (Nat.not_le.mpr hlt), hGet]
      dsimp only
      rw [hTok]
      dsimp only
      rw [if_pos hb]
    refine ⟨?_, ?_, ?_⟩
    · simp only [writeHandshakeMessage, hInner]
    · exact hF.1.2.2.2.2.2.2.2.1
    · exact hF.1.2.2.2.2.2.2.2.2.2.1
  · intro st payload cap tokens msg st2 hTurn hGet hTok hb1 hb2 hb3
    have hlt : st.patternPosition < st.messagePatterns.length := by
      by_contra hcon
      rw [List.get?_eq_none.mpr (Nat.le_of_not_lt hcon)] at hGet
      cases hGet
    have hInner : innerWrite st payload cap =
        StepResult.fail NoiseError.input
          { st2 with sym := (st2.sym.encryptAndMixHash payload).2 } := by
      simp only [innerWrite]
      rw [if_neg (by simp [hTurn]), if_neg (Nat.not_le.mpr hlt), hGet]
      dsimp only
      rw [hTok]
      dsimp only
      rw [if_neg hb1, if_neg hb2]
      rw [if_pos (by simpa [List.length_append] using hb3)]
    simp only [writeHandshakeMessage, hInner]
  · intro st payload cap capB tokens msg st2 hTurn hGet hTok hCapB hMaxB
    have hF := (processWriteTokens_frame tokens st [] cap).1 _ _ hTok
    have hInv := processWriteTokens_inv tokens st [] cap msg st2 hTok
    have hTurn2 : ({ st2 with sym := st.sym } : HandshakeState).myTurn = true := by
      show st2.myTurn = true
      rw [hF.1.2.2.2.2.2.2.2.1]
      exact hTurn
    have hGet2 : ({ st2 with sym := st.sym } : HandshakeState).messagePatterns.get?
        ({ st2 with sym := st.sym } : HandshakeState).patternPosition = some tokens := by
      show st2.messagePatterns.get? st2.patternPosition = some tokens
      rw [hF.1.2.2.2.2.2.2.2.2.1, hF.1.2.2.2.2.2.2.2.2.2.1]
      exact hGet
    have hOkF : wOkF ({ st2 with sym := st.sym } : HandshakeState).isPskHandshake
        ({ st2 with sym := st.sym } : HandshakeState).psks
        (WFlags.ofState { st2 with sym := st.sym }) tokens = true := by
      show wOkF st2.isPskHandshake st2.psks
        ⟨st2.s.onFlag, st2.e.onFlag, st2.rs.onFlag, st2.re.onFlag, st.sym.hasKey⟩ tokens = true
      rw [hF.1.2.2.2.2.2.1, hF.1.2.2.2.1]
      refine wOkF_mono_e tokens st.isPskHandshake st.psks (WFlags.ofState st) _ ?_ ?_ ?_ ?_ ?_ hInv.1
      · show st2.s.onFlag = st.s.onFlag
        rw [hF.1.1]
      · show st2.rs.onFlag = st.rs.onFlag
        rw [hF.1.2.1]
      · show st2.re.onFlag = st.re.onFlag
        rw [hF.1.2.2.1]
      · rfl
      · exact hF.2
    have hLen2 : wLen ({ st2 with sym := st.sym } : HandshakeState).isPskHandshake
        ({ st2 with sym := st.sym } : HandshakeState).sym.hasKey tokens = msg.length := by
      show wLen st2.isPskHandshake st.sym.hasKey tokens = msg.length
      rw [hF.1.2.2.2.2.2.1]
      simpa using hInv.2.symm
    obtain ⟨msgB, stB, hokB, hlenB, _, _, _⟩ :=
      processWriteTokens_ok_of tokens { st2 with sym := st.sym } [] capB hOkF
        (by rw [hLen2]; simp only [List.length_nil, Nat.zero_add]; omega)
    have hlenB2 : msgB.length = msg.length := by
      rw [hlenB, hLen2]; simp
    obtain ⟨res, stf, hIW⟩ := innerWrite_ok_exists hTurn2 hGet2 hokB
      (hlenB2.symm ▸ hCapB) (hlenB2.symm ▸ hMaxB)
    refine ⟨res, { stf with patternPosition := stf.patternPosition + 1 }, ?_⟩
    simp only [writeHandshakeMessage, hIW]

/-- Counterexample for C6 as stated: on a fresh NN initiator, a write into a
2-byte buffer fails with Input (the e public key fits but the payload bound
does not), yet the handshake state is not left unchanged — the ephemeral slot
was regenerated and enabled by the failed call. -/
theorem c6_counterexample_slot_mutated :
    (match writeHandshakeMessage nnInitSt [] 2 with
     | StepResult.fail NoiseError.input st2 => st2.e.onFlag
     | _ => false) = true ∧
    nnInitSt.e.onFlag = false := by
  decide

/-- Witness for C6 at a concrete input: the 2-byte-buffer write on a fresh NN
initiator fails with Input, leaves the symmetric state, turn and position
unchanged, and the same write with a full-size buffer then succeeds. -/
theorem c6_write_bounds_witness :
    ∃ stf, writeHandshakeMessage nnInitSt [] 2 = StepResult.fail NoiseError.input stf ∧
      stf.sym = nnInitSt.sym ∧ stf.myTurn = nnInitSt.myTurn ∧
      stf.patternPosition = nnInitSt.patternPosition ∧
      ∃ res stg, writeHandshakeMessage stf [] 65535 = StepResult.ok res stg := by
  obtain ⟨msg, st2, hTok⟩ :
      ∃ m s2, processWriteTokens nnInitSt [] 2 [Token.e] = StepResult.ok m s2 := ⟨_, _, rfl⟩
  have hA := c6_write_bounds.1 nnInitSt [] 2 [Token.e] msg st2 (by decide) (by decide) hTok
    (by
      have : msg.length = 2 := by
        have := (processWriteTokens_inv [Token.e] nnInitSt [] 2 msg st2 hTok).2
        simpa [wLen, tokLen, keyStep, dhLen] using this
      simp only [this, List.length_nil, TAGLEN]
      omega)
  have hC := c6_write_bounds.2.2 nnInitSt [] 2 65535 [Token.e] msg st2 (by decide) (by decide)
    hTok
    (by
      have : msg.length = 2 := by
        have := (processWriteTokens_inv [Token.e] nnInitSt [] 2 msg st2 hTok).2
        simpa [wLen, tokLen, keyStep, dhLen] using this
      simp only [this, List.length_nil, TAGLEN]
      omega)
    (by
      have : msg.length = 2 := by
        have := (processWriteTokens_inv [Token.e] nnInitSt [] 2 msg st2 hTok).2
        simpa [wLen, tokLen, keyStep, dhLen] using this
      simp only [this, List.length_nil, TAGLEN, MAXMSGLEN]
      omega)
  exact ⟨_, hA.1, rfl, hA.2.1, hA.2.2, hC⟩

/-! ## C8: protocol-name parsing -/

/-- Whether an Except value is a success. -/
def isOkE {ε α : Type} : Except ε α → Bool
  | Except.ok _ => true
  | Except.error _ => false

/-- Whether field number i of a protocol name is accepted by its parser. -/
def fieldOk : Nat → String → Bool
  | 0, f => isOkE (BaseChoice.fromStr f)
  | 1, f => isOkE (HandshakeChoice.fromStr f)
  | 2, f => isOkE (DHChoice.fromStr f)
  | 3, f => isOkE (CipherChoice.fromStr f)
  | _, f => isOkE (HashChoice.fromStr f)

/-- C8: parsing "Noise_XX_25519_AES_SHA256" fails with UnsupportedCipherType,
parsing "Noise_XX_25519_AESGCM" fails with TooFewParameters, and in general,
whenever fewer than five underscore-separated fields are present and every
field that is present is accepted by its parser, parsing fails with
TooFewParameters.  (The claim's unconditional missing-field clause does not
hold: parsing is sequential, so an unsupported earlier field masks a missing
later one — see the counterexample.) -/
theorem c8_name_parsing :
    NoiseParams.fromStr "Noise_XX_25519_AES_SHA256" =
      Except.error (NoiseError.pattern PatternProblem.unsupportedCipherType) ∧
    NoiseParams.fromStr "Noise_XX_25519_AESGCM" =
      Except.error (NoiseError.pattern PatternProblem.tooFewParameters) ∧
    (∀ s : String, (splitOnSep '_' s).length < 5 →
      (∀ i, i < (splitOnSep '_' s).length →
        fieldOk i ((splitOnSep '_' s).getD i "") = true) →
      NoiseParams.fromStr s =
        Except.error (NoiseError.pattern PatternProblem.tooFewParameters)) := by
  refine ⟨by decide, by decide, ?_⟩
  intro s hlen hok
  match hf : splitOnSep '_' s with
  | [] => simp [NoiseParams.fromStr, hf, nextField, Bind.bind, Except.bind]
  | [a] =>
    have h0 := hok 0 (by rw [hf]; simp)
    rw [hf] at h0
    simp only [List.getD, List.get?, Option.getD, fieldOk] at h0
    cases hB : BaseChoice.fromStr a with
    | error e => rw [hB] at h0; cases h0
    | ok v => simp [NoiseParams.fromStr, hf, nextField, Bind.bind, Except.bind, hB]
  | [a, b] =>
    have h0 := hok 0 (by rw [hf]; simp)
    have h1 := hok 1 (by rw [hf]; simp)
    rw [hf] at h0 h1
    simp only [List.getD, List.get?, Option.getD, fieldOk] at h0 h1
    cases hB : BaseChoice.fromStr a with
    | error e => rw [hB] at h0; cases h0
    | ok v =>
      cases hH : HandshakeChoice.fromStr b with
      | error e => rw [hH] at h1; cases h1
      | ok w => simp [NoiseParams.fromStr, hf, nextField, Bind.bind, Except.bind, hB, hH]
  | [a, b, c] =>
    have h0 := hok 0 (by rw [hf]; simp)
    have h1 := hok 1 (by rw [hf]; simp)
    have h2 := hok 2 (by rw [hf]; simp)
    rw [hf] at h0 h1 h2
    simp only [List.getD, List.get?, Option.getD, fieldOk] at h0 h1 h2
    cases hB : BaseChoice.fromStr a with
    | error e => rw [hB] at h0; cases h0
    | ok v =>
      cases hH : HandshakeChoice.fromStr b with
      | error e => rw [hH] at h1; cases h1
      | ok w =>
        cases hD : DHChoice.fromStr c with
        | error e => rw [hD] at h2; cases h2
        | ok x => simp [NoiseParams.fromStr, hf, nextField, Bind.bind, Except.bind, hB, hH, hD]
  | [a, b, c, d] =>
    have h0 := hok 0 (by rw [hf]; simp)
    have h1 := hok 1 (by rw [hf]; simp)
    have h2 := hok 2 (by rw [hf]; simp)
    have h3 := hok 3 (by rw [hf]; simp)
    rw [hf] at h0 h1 h2 h3
    simp only [List.getD, List.get?, Option.getD, fieldOk] at h0 h1 h2 h3
    cases hB : BaseChoice.fromStr a with
    | error e => rw [hB] at h0; cases h0
    | ok v =>
      cases hH : HandshakeChoice.fromStr b with
      | error e => rw [hH] at h1; cases h1
      | ok w =>
        cases hD : DHChoice.fromStr c with
        | error e => rw [hD] at h2; cases h2
        | ok x =>
          cases hC : CipherChoice.fromStr d with
          | error e => rw [hC] at h3; cases h3
          | ok y =>
            simp [NoiseParams.fromStr, hf, nextField, Bind.bind, Except.bind, hB, hH, hD, hC]
  | a :: b :: c :: d :: e :: rest =>
    rw [hf] at hlen
    simp at hlen
    omega

/-- C8 counterexample to the unconditional missing-field clause: the name
"Bogus_XX_25519_AESGCM" is missing its fifth (hash) field, yet parsing reports
UnsupportedBaseType, not TooFewParameters, because the base field is checked
first. -/
theorem c8_counterexample_unsupported_masks_missing :
    NoiseParams.fromStr "Bogus_XX_25519_AESGCM" =
      Except.error (NoiseError.pattern PatternProblem.unsupportedBaseType) ∧
    (splitOnSep '_' "Bogus_XX_25519_AESGCM").length < 5 ∧
    PatternProblem.unsupportedBaseType ≠ PatternProblem.tooFewParameters := by
  refine ⟨by decide, by decide, by decide⟩

/-- C8 witness: the general clause applied to "Noise_IK_25519_ChaChaPoly"
(four well-formed fields, hash missing). -/
theorem c8_name_parsing_witness :
    NoiseParams.fromStr "Noise_IK_25519_ChaChaPoly" =
      Except.error (NoiseError.pattern PatternProblem.tooFewParameters) :=
  c8_name_parsing.2.2 "Noise_IK_25519_ChaChaPoly" (by decide) (by decide)


/-! ## C9: construction and pre-message mixing -/

/-- Sequencing a list of optional values: all present or nothing. -/
def seqO {α : Type} : List (Option α) → Option (List α)
  | [] => some []
  | none :: _ => none
  | some a :: os =>
    match seqO os with
    | some bs => some (a :: bs)
    | none => none

/-- The claim's wording of one pre-message key: the executing side's own role
draws from the local s/e slots (as public keys), the peer's role from the
rs/re buffers truncated to DH length; a missing slot gives none. -/
def specPremsgKey (s e : Toggle DhKey) (rs re : Toggle Bytes) (dhl : Nat) (own : Bool) :
    Token → Option Bytes
  | Token.s => if own then (s.get).map (fun d => d.pubkey) else (rs.get).map (fun b => b.take dhl)
  | Token.e => if own then (e.get).map (fun d => d.pubkey) else (re.get).map (fun b => b.take dhl)
  | _ => none

/-- The claim's wording of the full pre-message key list: the initiator's
pre-message tokens first, the responder's second. -/
def specPremsgKeys (s e : Toggle DhKey) (rs re : Toggle Bytes) (dhl : Nat) (ini : Bool)
    (tokens : HandshakeTokens) : Option (List Bytes) :=
  seqO ((tokens.premsgPatternI.map (specPremsgKey s e rs re dhl ini)) ++
        (tokens.premsgPatternR.map (specPremsgKey s e rs re dhl (!ini))))

/-- The claim's wording of the constructed symmetric state: initialize with
the protocol name, mix the prologue into the hash, then mix each pre-message
public key in order. -/
def specConstructedSym (name pro : Bytes) (keys : List Bytes) : SymmetricState :=
  keys.foldl SymmetricState.mixHash ((SymmetricState.initializeSym name).mixHash pro)

/-- seqO distributes over append. -/
theorem seqO_append {α : Type} (xs ys : List (Option α)) :
    seqO (xs ++ ys) =
      match seqO xs, seqO ys with
      | some a, some b => some (a ++ b)
      | _, _ => (none : Option (List α)) := by
  induction xs with
  | nil =>
    cases hy : seqO ys with
    | none => simp [seqO, hy]
    | some b => simp [seqO, hy]
  | cons o os ih =>
    cases o with
    | none => simp [seqO]
    | some a =>
      rw [List.cons_append]
      show (match seqO (os ++ ys) with
        | some bs => some (a :: bs)
        | none => none) = _
      rw [ih]
      cases hx : seqO os with
      | none => cases hy : seqO ys with
        | none => simp [seqO, hx]
        | some b => simp [seqO, hx]
      | some xa => cases hy : seqO ys with
        | none => simp [seqO, hx, hy]
        | some b => simp [seqO, hx, hy]

/-- The source's pre-message loop agrees with the claim-worded key list: when
every slot a token needs is on, it mix-hashes exactly the listed keys in
order; otherwise it fails with MissingKeyMaterial. -/
theorem mixPremsg_spec (s e : Toggle DhKey) (rs re : Toggle Bytes) (dhl : Nat) (own : Bool)
    (ts : List Token) (hts : ∀ t ∈ ts, t = Token.s ∨ t = Token.e) (sym : SymmetricState) :
    mixPremsg s e rs re dhl own sym ts =
      match seqO (ts.map (specPremsgKey s e rs re dhl own)) with
      | some keys => POutcome.ok (keys.foldl SymmetricState.mixHash sym)
      | none => POutcome.fail (NoiseError.state StateProblem.missingKeyMaterial) := by
  induction ts generalizing sym with
  | nil => simp [mixPremsg, seqO]
  | cons t ts ih =>
    have ht := hts t (by simp)
    have hts2 : ∀ u ∈ ts, u = Token.s ∨ u = Token.e := fun u hu => hts u (by simp [hu])
    cases ht with
    | inl h =>
      subst h
      cases hown : own with
      | true =>
        cases hg : s.get with
        | none => simp [mixPremsg, hg, specPremsgKey, seqO]
        | some d =>
          have hrec := ih hts2 (sym.mixHash d.pubkey)
          rw [hown] at hrec
          cases hq : seqO (ts.map (specPremsgKey s e rs re dhl true)) with
          | none =>
            rw [hq] at hrec
            simp only [] at hrec
            simp [mixPremsg, hg, specPremsgKey, seqO, hq, hrec]
          | some keys =>
            rw [hq] at hrec
            simp only [] at hrec
            simp [mixPremsg, hg, specPremsgKey, seqO, hq, hrec]
      | false =>
        cases hg : rs.get with
        | none => simp [mixPremsg, hg, specPremsgKey, seqO]
        | some b =>
          have hrec := ih hts2 (sym.mixHash (b.take dhl))
          rw [hown] at hrec
          cases hq : seqO (ts.map (specPremsgKey s e rs re dhl false)) with
          | none =>
            rw [hq] at hrec
            simp only [] at hrec
            simp [mixPremsg, hg, specPremsgKey, seqO, hq, hrec]
          | some keys =>
            rw [hq] at hrec
            simp only [] at hrec
            simp [mixPremsg, hg, specPremsgKey, seqO, hq, hrec]
    | inr h =>
      subst h
      cases hown : own with
      | true =>
        cases hg : e.get with
        | none => simp [mixPremsg, hg, specPremsgKey, seqO]
        | some d =>
          have hrec := ih hts2 (sym.mixHash d.pubkey)
          rw [hown] at hrec
          cases hq : seqO (ts.map (specPremsgKey s e rs re dhl true)) with
          | none =>
            rw [hq] at hrec
            simp only [] at hrec
            simp [mixPremsg, hg, specPremsgKey, seqO, hq, hrec]
          | some keys =>
            rw [hq] at hrec
            simp only [] at hrec
            simp [mixPremsg, hg, specPremsgKey, seqO, hq, hrec]
      | false =>
        cases hg : re.get with
        | none => simp [mixPremsg, hg, specPremsgKey, seqO]
        | some b =>
          have hrec := ih hts2 (sym.mixHash (b.take dhl))
          rw [hown] at hrec
          cases hq : seqO (ts.map (specPremsgKey s e rs re dhl false)) with
          | none =>
            rw [hq] at hrec
            simp only [] at hrec
            simp [mixPremsg, hg, specPremsgKey, seqO, hq, hrec]
          | some keys =>
            rw [hq] at hrec
            simp only [] at hrec
            simp [mixPremsg, hg, specPremsgKey, seqO, hq, hrec]


/-- C9: for any construction inputs that pass key-length validation and whose
pattern expands, with pre-message patterns of S/E tokens: when every needed
slot is on, HandshakeState::new succeeds and its symmetric state is exactly
initialize(name), mix_hash(prologue), then the pre-message public keys in
claim order (initiator pre-messages first, responder second, own role from
local slots, peer role from rs/re truncated to dh_len) — and when some needed
slot is off, construction fails with MissingKeyMaterial. -/
theorem c9_construction (rng : Nat) (s e : Toggle DhKey) (fe : Bool)
    (rs re : Toggle Bytes) (ini : Bool) (name : Bytes) (hs : HandshakeChoice)
    (psks : List (Option Bytes)) (pro : Bytes) (tokens : HandshakeTokens)
    (hv : ((s.isOn && e.isOn && decide (s.inner.pubLen ≠ e.inner.pubLen)) ||
           (s.isOn && rs.isOn && decide (rs.inner.length < s.inner.pubLen)) ||
           (s.isOn && re.isOn && decide (re.inner.length < s.inner.pubLen))) = false)
    (htf : HandshakeTokens.tryFrom hs = Except.ok tokens)
    (hI : ∀ t ∈ tokens.premsgPatternI, t = Token.s ∨ t = Token.e)
    (hR : ∀ t ∈ tokens.premsgPatternR, t = Token.s ∨ t = Token.e) :
    (∀ keys, specPremsgKeys s e rs re s.inner.pubLen ini tokens = some keys →
      HandshakeState.new rng s e fe rs re ini name hs psks pro =
        POutcome.ok
          { rng := rng
            sym := specConstructedSym name pro keys
            cipherstates := (⟨[], 0⟩, ⟨[], 0⟩)
            s := s
            e := e
            fixedEphemeral := fe
            rs := rs
            re := re
            initiator := ini
            isPskHandshake := hs.isPsk
            psks := psks
            myTurn := ini
            messagePatterns := tokens.msgPatterns
            patternPosition := 0 }) ∧
    (specPremsgKeys s e rs re s.inner.pubLen ini tokens = none →
      HandshakeState.new rng s e fe rs re ini name hs psks pro =
        POutcome.fail (NoiseError.state StateProblem.missingKeyMaterial)) := by
  constructor
  · intro keys hk
    unfold specPremsgKeys at hk
    rw [seqO_append] at hk
    cases hxI : seqO (tokens.premsgPatternI.map (specPremsgKey s e rs re s.inner.pubLen ini)) with
    | none => rw [hxI] at hk; simp at hk
    | some kI =>
      cases hxR : seqO (tokens.premsgPatternR.map (specPremsgKey s e rs re s.inner.pubLen (!ini))) with
      | none => rw [hxI, hxR] at hk; simp at hk
      | some kR =>
        rw [hxI, hxR] at hk
        simp at hk
        subst hk
        have hMI := mixPremsg_spec s e rs re s.inner.pubLen ini tokens.premsgPatternI hI
          ((SymmetricState.initializeSym name).mixHash pro)
        rw [hxI] at hMI
        have hMR := mixPremsg_spec s e rs re s.inner.pubLen (!ini) tokens.premsgPatternR hR
          (kI.foldl SymmetricState.mixHash ((SymmetricState.initializeSym name).mixHash pro))
        rw [hxR] at hMR
        unfold HandshakeState.new
        rw [hv]
        simp [htf, hMI, hMR, specConstructedSym, List.foldl_append]
  · intro hk
    unfold specPremsgKeys at hk
    rw [seqO_append] at hk
    cases hxI : seqO (tokens.premsgPatternI.map (specPremsgKey s e rs re s.inner.pubLen ini)) with
    | none =>
      have hMI := mixPremsg_spec s e rs re s.inner.pubLen ini tokens.premsgPatternI hI
        ((SymmetricState.initializeSym name).mixHash pro)
      rw [hxI] at hMI
      unfold HandshakeState.new
      rw [hv]
      simp [htf, hMI]
    | some kI =>
      cases hxR : seqO (tokens.premsgPatternR.map (specPremsgKey s e rs re s.inner.pubLen (!ini))) with
      | some kR => rw [hxI, hxR] at hk; simp at hk
      | none =>
        have hMI := mixPremsg_spec s e rs re s.inner.pubLen ini tokens.premsgPatternI hI
          ((SymmetricState.initializeSym name).mixHash pro)
        rw [hxI] at hMI
        have hMR := mixPremsg_spec s e rs re s.inner.pubLen (!ini) tokens.premsgPatternR hR
          (kI.foldl SymmetricState.mixHash ((SymmetricState.initializeSym name).mixHash pro))
        rw [hxR] at hMR
        unfold HandshakeState.new
        rw [hv]
        simp [htf, hMI, hMR]

/-- C9 witness: a concrete KK construction mixes [s-pubkey of the local
static, truncated rs buffer] after name and prologue. -/
theorem c9_construction_witness :
    HandshakeState.new 11 (Toggle.mkOn ⟨5⟩) (Toggle.mkOff ⟨0⟩) false
        (Toggle.mkOn [7, 0]) (Toggle.mkOff []) true [9] ⟨HandshakePattern.KK, []⟩ [] [3] =
      POutcome.ok
        { rng := 11
          sym := specConstructedSym [9] [3] [[5, 0], [7, 0]]
          cipherstates := (⟨[], 0⟩, ⟨[], 0⟩)
          s := Toggle.mkOn ⟨5⟩
          e := Toggle.mkOff ⟨0⟩
          fixedEphemeral := false
          rs := Toggle.mkOn [7, 0]
          re := Toggle.mkOff []
          initiator := true
          isPskHandshake := HandshakeChoice.isPsk ⟨HandshakePattern.KK, []⟩
          psks := []
          myTurn := true
          messagePatterns := (basePatternTokens HandshakePattern.KK).msgPatterns
          patternPosition := 0 } :=
  (c9_construction 11 (Toggle.mkOn ⟨5⟩) (Toggle.mkOff ⟨0⟩) false
      (Toggle.mkOn [7, 0]) (Toggle.mkOff []) true [9] ⟨HandshakePattern.KK, []⟩ [] [3]
      (basePatternTokens HandshakePattern.KK)
      (by decide) (by decide) (by decide) (by decide)).1 [[5, 0], [7, 0]] (by decide)



/-! ## C7: missing psk -/

/-- Splitting the write-path token loop at a successful prefix. -/
theorem processWriteTokens_append (pre rest : List Token) (st : HandshakeState) (msg : Bytes)
    (cap : Nat) {m2 : Bytes} {st2 : HandshakeState}
    (h : processWriteTokens st msg cap pre = StepResult.ok m2 st2) :
    processWriteTokens st msg cap (pre ++ rest) = processWriteTokens st2 m2 cap rest := by
  induction pre generalizing st msg with
  | nil =>
    simp only [processWriteTokens] at h
    cases h
    simp
  | cons t ts ih =>
    simp only [processWriteTokens] at h
    rw [List.cons_append]
    simp only [processWriteTokens]
    cases hh : processWriteToken st msg cap t <;> rw [hh] at h
    case ok msgB stB => exact ih stB msgB h
    case fail errB stB => cases h
    case abort => cases h

/-- Splitting the read-path token loop at a successful prefix. -/
theorem processReadTokens_append (pre rest : List Token) (st : HandshakeState) (ptr : Bytes)
    {p2 : Bytes} {st2 : HandshakeState}
    (h : processReadTokens st ptr pre = StepResult.ok p2 st2) :
    processReadTokens st ptr (pre ++ rest) = processReadTokens st2 p2 rest := by
  induction pre generalizing st ptr with
  | nil =>
    simp only [processReadTokens] at h
    cases h
    simp
  | cons t ts ih =>
    simp only [processReadTokens] at h
    rw [List.cons_append]
    simp only [processReadTokens]
    cases hh : processReadToken st ptr t <;> rw [hh] at h
    case ok ptrB stB => exact ih stB ptrB h
    case fail errB stB => cases h
    case abort => cases h

/-- Replacing the psk array of a state. -/
def withPsks (ps : List (Option Bytes)) (st : HandshakeState) : HandshakeState :=
  { st with psks := ps }

/-- Mapping a function over the state carried by a step result. -/
def StepResult.mapSt {α : Type} (f : HandshakeState → HandshakeState) : StepResult α → StepResult α
  | StepResult.ok a st => StepResult.ok a (f st)
  | StepResult.fail err st => StepResult.fail err (f st)
  | StepResult.abort => StepResult.abort

/-- Whether a token is not a Psk token. -/
def pskFreeTok : Token → Bool
  | Token.psk _ => false
  | _ => true

/-- A non-Psk write-path token step never reads the psk array: its outcome on
a state with a replaced psk array is the original outcome with the array
replaced in the carried state. -/
theorem processWriteToken_psks (ps : List (Option Bytes)) (st : HandshakeState) (msg : Bytes)
    (cap : Nat) (t : Token) (hfree : pskFreeTok t = true) :
    processWriteToken (withPsks ps st) msg cap t =
      StepResult.mapSt (withPsks ps) (processWriteToken st msg cap t) := by
  cases t
  case psk n => simp [pskFreeTok] at hfree
  all_goals
    simp only [processWriteToken, dhTokenWrite, dhArgsWrite, withPsks, HandshakeState.dh]
  all_goals repeat' split
  all_goals simp_all [StepResult.mapSt, withPsks, HandshakeState.dhl]

/-- A non-Psk read-path token step never reads the psk array. -/
theorem processReadToken_psks (ps : List (Option Bytes)) (st : HandshakeState) (ptr : Bytes)
    (t : Token) (hfree : pskFreeTok t = true) :
    processReadToken (withPsks ps st) ptr t =
      StepResult.mapSt (withPsks ps) (processReadToken st ptr t) := by
  cases t
  case psk n => simp [pskFreeTok] at hfree
  all_goals
    simp only [processReadToken, dhTokenRead, dhArgsRead, withPsks, HandshakeState.dh,
      HandshakeState.dhl]
  all_goals repeat' split
  all_goals simp_all [StepResult.mapSt, withPsks, HandshakeState.dhl]

/-- The write-path token loop over Psk-free tokens never reads the psk
array. -/
theorem processWriteTokens_psks (ps : List (Option Bytes)) (ts : List Token)
    (hfree : ∀ t ∈ ts, pskFreeTok t = true) (st : HandshakeState) (msg : Bytes) (cap : Nat) :
    processWriteTokens (withPsks ps st) msg cap ts =
      StepResult.mapSt (withPsks ps) (processWriteTokens st msg cap ts) := by
  induction ts generalizing st msg with
  | nil => simp [processWriteTokens, StepResult.mapSt]
  | cons t ts ih =>
    have hf := hfree t (by simp)
    have hfs : ∀ u ∈ ts, pskFreeTok u = true := fun u hu => hfree u (by simp [hu])
    simp only [processWriteTokens]
    rw [processWriteToken_psks ps st msg cap t hf]
    cases hh : processWriteToken st msg cap t
    case ok msgB stB => simpa [StepResult.mapSt] using ih hfs stB msgB
    case fail errB stB => simp [StepResult.mapSt]
    case abort => simp [StepResult.mapSt]

/-- The read-path token loop over Psk-free tokens never reads the psk
array. -/
theorem processReadTokens_psks (ps : List (Option Bytes)) (ts : List Token)
    (hfree : ∀ t ∈ ts, pskFreeTok t = true) (st : HandshakeState) (ptr : Bytes) :
    processReadTokens (withPsks ps st) ptr ts =
      StepResult.mapSt (withPsks ps) (processReadTokens st ptr ts) := by
  induction ts generalizing st ptr with
  | nil => simp [processReadTokens, StepResult.mapSt]
  | cons t ts ih =>
    have hf := hfree t (by simp)
    have hfs : ∀ u ∈ ts, pskFreeTok u = true := fun u hu => hfree u (by simp [hu])
    simp only [processReadTokens]
    rw [processReadToken_psks ps st ptr t hf]
    cases hh : processReadToken st ptr t
    case ok ptrB stB => simpa [StepResult.mapSt] using ih hfs stB ptrB
    case fail errB stB => simp [StepResult.mapSt]
    case abort => simp [StepResult.mapSt]


/-- _write_handshake_message on a Psk-free current message never reads the psk
array. -/
theorem innerWrite_psks (ps : List (Option Bytes)) (st : HandshakeState) (payload : Bytes)
    (cap : Nat) (tokens : List Token)
    (hts : st.messagePatterns.get? st.patternPosition = some tokens)
    (hfree : ∀ t ∈ tokens, pskFreeTok t = true) :
    innerWrite (withPsks ps st) payload cap =
      StepResult.mapSt (withPsks ps) (innerWrite st payload cap) := by
  unfold innerWrite
  simp only [withPsks]
  rw [hts]
  simp only []
  rw [show processWriteTokens { st with psks := ps } [] cap tokens =
      StepResult.mapSt (withPsks ps) (processWriteTokens st [] cap tokens) from
    processWriteTokens_psks ps tokens hfree st [] cap]
  cases hres : processWriteTokens st [] cap tokens with
  | ok msg st2 =>
    simp only [StepResult.mapSt, withPsks]
    split_ifs <;> simp [StepResult.mapSt, withPsks]
  | fail err st2 =>
    simp only [StepResult.mapSt, withPsks]
    split_ifs <;> simp [StepResult.mapSt, withPsks]
  | abort =>
    simp only [StepResult.mapSt, withPsks]
    split_ifs <;> simp [StepResult.mapSt, withPsks]

/-- _read_handshake_message on a Psk-free current message never reads the psk
array. -/
theorem innerRead_psks (ps : List (Option Bytes)) (st : HandshakeState) (message : Bytes)
    (tokens : List Token)
    (hts : st.messagePatterns.get? st.patternPosition = some tokens)
    (hfree : ∀ t ∈ tokens, pskFreeTok t = true) :
    innerRead (withPsks ps st) message =
      StepResult.mapSt (withPsks ps) (innerRead st message) := by
  unfold innerRead
  simp only [withPsks]
  rw [hts]
  simp only []
  rw [show processReadTokens { st with psks := ps } message tokens =
      StepResult.mapSt (withPsks ps) (processReadTokens st message tokens) from
    processReadTokens_psks ps tokens hfree st message]
  cases hres : processReadTokens st message tokens with
  | ok ptr st2 =>
    simp only [StepResult.mapSt, withPsks]
    by_cases h1 : MAXMSGLEN < message.length
    · simp [h1]
    · simp [h1]
      cases hdec : st2.sym.decryptAndMixHash ptr with
      | none => simp [hdec, StepResult.mapSt, withPsks]
      | some r =>
        simp only [hdec]
        split_ifs <;> simp [StepResult.mapSt, withPsks]
  | fail err st2 =>
    simp only [StepResult.mapSt, withPsks]
    split_ifs <;> simp [StepResult.mapSt, withPsks]
  | abort =>
    simp only [StepResult.mapSt, withPsks]
    split_ifs <;> simp [StepResult.mapSt, withPsks]


/-- C7: when the current message pattern contains Psk(n), the psk slot n is
unset, and the tokens before the Psk token process successfully, the write
(under its turn check) and the read both fail with MissingPsk, the symmetric
state restored to its pre-call value; and a message whose pattern has no Psk
token is processed without reading the psk array at all, on the write and the
read path alike. -/
theorem c7_missing_psk :
    (∀ (st : HandshakeState) (payload : Bytes) (cap : Nat) (pre post : List Token) (n : Nat)
        (msg : Bytes) (st2 : HandshakeState),
      st.myTurn = true →
      st.messagePatterns.get? st.patternPosition = some (pre ++ Token.psk n :: post) →
      processWriteTokens st [] cap pre = StepResult.ok msg st2 →
      st.psks.get? n = some none →
      writeHandshakeMessage st payload cap =
        StepResult.fail (NoiseError.state StateProblem.missingPsk) { st2 with sym := st.sym }) ∧
    (∀ (st : HandshakeState) (message : Bytes) (pre post : List Token) (n : Nat)
        (ptr : Bytes) (st2 : HandshakeState),
      message.length ≤ MAXMSGLEN →
      st.messagePatterns.get? st.patternPosition = some (pre ++ Token.psk n :: post) →
      processReadTokens st message pre = StepResult.ok ptr st2 →
      st.psks.get? n = some none →
      readHandshakeMessage st message =
        StepResult.fail (NoiseError.state StateProblem.missingPsk) { st2 with sym := st.sym }) ∧
    (∀ (ps : List (Option Bytes)) (st : HandshakeState) (payload message : Bytes) (cap : Nat)
        (tokens : List Token),
      st.messagePatterns.get? st.patternPosition = some tokens →
      (∀ t ∈ tokens, pskFreeTok t = true) →
      writeHandshakeMessage (withPsks ps st) payload cap =
        StepResult.mapSt (withPsks ps) (writeHandshakeMessage st payload cap) ∧
      readHandshakeMessage (withPsks ps st) message =
        StepResult.mapSt (withPsks ps) (readHandshakeMessage st message)) := by
  refine ⟨?_, ?_, ?_⟩
  · intro st payload cap pre post n msg st2 hturn hts hpre hpsk
    have hlt : st.patternPosition < st.messagePatterns.length := by
      by_contra hc
      push_neg at hc
      rw [List.get?_eq_none.mpr hc] at hts
      cases hts
    have hfr := (processWriteTokens_frame pre st [] cap).1 msg st2 hpre
    have hpsk2 : st2.psks[n]? = some none := by
      have h := hpsk
      rw [← hfr.1.2.2.2.1] at h
      simpa using h
    unfold writeHandshakeMessage innerWrite
    rw [hturn, if_neg (by simp), if_neg (Nat.not_le.mpr hlt), hts]
    simp only []
    rw [processWriteTokens_append pre (Token.psk n :: post) st [] cap hpre]
    simp [processWriteTokens, processWriteToken, hpsk2]
  · intro st message pre post n ptr st2 hlen hts hpre hpsk
    have hfr := (processReadTokens_frame pre st message).1 ptr st2 hpre
    have hpsk2 : st2.psks[n]? = some none := by
      have h := hpsk
      rw [← hfr.1.2.2.2.1] at h
      simpa using h
    unfold readHandshakeMessage innerRead
    rw [if_neg (Nat.not_lt.mpr hlen), hts]
    simp only []
    rw [processReadTokens_append pre (Token.psk n :: post) st message hpre]
    simp [processReadTokens, processReadToken, hpsk2]
  · intro ps st payload message cap tokens hts hfree
    constructor
    · unfold writeHandshakeMessage
      rw [innerWrite_psks ps st payload cap tokens hts hfree]
      cases hres : innerWrite st payload cap with
      | ok res st2 => simp [StepResult.mapSt, withPsks]
      | fail err st2 => simp [StepResult.mapSt, withPsks]
      | abort => simp [StepResult.mapSt]
    · unfold readHandshakeMessage
      rw [innerRead_psks ps st message tokens hts hfree]
      cases hres : innerRead st message with
      | ok res st2 => simp [StepResult.mapSt, withPsks]
      | fail err st2 => simp [StepResult.mapSt, withPsks]
      | abort => simp [StepResult.mapSt]

/-- A freshly constructed Noise_XXpsk0 initiator with no psk installed. -/
def xxPsk0InitSt : HandshakeState :=
  POutcome.getState
    (mkSide true 3 5 100 ⟨HandshakePattern.XX, [HandshakeModifier.psk 0]⟩ noPsks [7] [1, 2])

/-- C7 witness: the XXpsk0 initiator with an empty psk slot fails its first
write with MissingPsk. -/
theorem c7_missing_psk_witness :
    writeHandshakeMessage xxPsk0InitSt [] 65535 =
      StepResult.fail (NoiseError.state StateProblem.missingPsk)
        { xxPsk0InitSt with sym := xxPsk0InitSt.sym } :=
  c7_missing_psk.1 xxPsk0InitSt [] 65535 [] [Token.e] 0 [] xxPsk0InitSt
    (by decide) (by decide) (by decide) (by decide)


/-! ## C2: the ES/SE dispatch -/

/-- The claim's wording of the DH argument pair: chosen by the executing
side's role — the initiator maps ES to (local ephemeral, remote static) and SE
to (local static, remote ephemeral); the responder maps the same tokens the
other way around. -/
def specDhArgsRole (isInit : Bool) : Token → Option (Bool × Bool)
  | Token.dhee => some (false, false)
  | Token.dhes => if isInit then some (false, true) else some (true, false)
  | Token.dhse => if isInit then some (true, false) else some (false, true)
  | Token.dhss => some (true, true)
  | _ => none

/-- C2 (amended): the (local_is_static, remote_is_static) pair is chosen by
the OPERATION, not by the executing side's role.  The write path always uses
ES ↦ (ephemeral, remote static) and SE ↦ (static, remote ephemeral); the read
path uses the componentwise swap; so the claim's role mapping describes the
write path only for isInit = true and the read path only for isInit = false,
whichever side is executing.  The last two conjuncts restate the dispatch at
the token-step level: the write and read steps call dh with exactly these
pairs. -/
theorem c2_dh_dispatch :
    (dhArgsWrite Token.dhee = some (false, false) ∧
     dhArgsWrite Token.dhes = some (false, true) ∧
     dhArgsWrite Token.dhse = some (true, false) ∧
     dhArgsWrite Token.dhss = some (true, true)) ∧
    (∀ t, dhArgsRead t = (dhArgsWrite t).map (fun ab => (ab.2, ab.1))) ∧
    (∀ t, specDhArgsRole true t = dhArgsWrite t) ∧
    (∀ t, specDhArgsRole false t = dhArgsRead t) ∧
    (∀ st : HandshakeState, ∀ msg : Bytes,
      dhTokenWrite st msg Token.dhes =
        (match st.dh false true with
         | Except.error err => StepResult.fail err st
         | Except.ok dhOut =>
           StepResult.ok msg { st with sym := st.sym.mixKey (dhOut.take st.dhl) }) ∧
      dhTokenWrite st msg Token.dhse =
        (match st.dh true false with
         | Except.error err => StepResult.fail err st
         | Except.ok dhOut =>
           StepResult.ok msg { st with sym := st.sym.mixKey (dhOut.take st.dhl) })) ∧
    (∀ st : HandshakeState, ∀ ptr : Bytes,
      dhTokenRead st ptr Token.dhes =
        (match st.dh true false with
         | Except.error err => StepResult.fail err st
         | Except.ok dhOut =>
           StepResult.ok ptr { st with sym := st.sym.mixKey (dhOut.take st.dhl) }) ∧
      dhTokenRead st ptr Token.dhse =
        (match st.dh false true with
         | Except.error err => StepResult.fail err st
         | Except.ok dhOut =>
           StepResult.ok ptr { st with sym := st.sym.mixKey (dhOut.take st.dhl) })) := by
  refine ⟨⟨rfl, rfl, rfl, rfl⟩, ?_, ?_, ?_, ?_, ?_⟩
  · intro t
    cases t <;> rfl
  · intro t
    cases t <;> rfl
  · intro t
    cases t <;> rfl
  · intro st msg
    exact ⟨rfl, rfl⟩
  · intro st ptr
    exact ⟨rfl, rfl⟩

/-- A responder state with its own ephemeral on, the peer's static pre-shared
in rs, and no local static, positioned at Noise_XX's second message. -/
def c2RespSt : HandshakeState :=
  { rng := 0
    sym := SymmetricState.initializeSym [1, 2]
    cipherstates := (⟨[], 0⟩, ⟨[], 0⟩)
    s := Toggle.mkOff ⟨0⟩
    e := Toggle.mkOn ⟨4⟩
    fixedEphemeral := false
    rs := Toggle.mkOn (pubBuf 3)
    re := Toggle.mkOff zerosBuf
    initiator := false
    isPskHandshake := false
    psks := noPsks
    myTurn := true
    messagePatterns := (basePatternTokens HandshakePattern.XX).msgPatterns
    patternPosition := 1 }

/-- C2 counterexample: the Noise_XX responder writes message index 1, which
contains an SE-class DH token; the code's write-path dispatch passes
(local static, remote ephemeral) — here failing with MissingKeyMaterial
because the local static is off — while the claim's role mapping for a
responder would pass (local ephemeral, remote static), which this state's dh
would accept (the swapped call succeeds).  The dispatch is therefore not
inverted by role. -/
theorem c2_counterexample_role_dispatch :
    (basePatternTokens HandshakePattern.XX).msgPatterns.get? 1 =
      some [Token.e, Token.dhee, Token.s, Token.dhse] ∧
    c2RespSt.initiator = false ∧
    dhArgsWrite Token.dhse = some (true, false) ∧
    specDhArgsRole false Token.dhse = some (false, true) ∧
    processWriteToken c2RespSt [] 65535 Token.dhse =
      StepResult.fail (NoiseError.state StateProblem.missingKeyMaterial) c2RespSt ∧
    c2RespSt.dh false true = Except.ok (dhCompute 4 (pubBuf 3)) := by
  refine ⟨by decide, by decide, by decide, by decide, by decide, by decide⟩


/-! ## C1: the full round trip -/

/-- The toy AEAD tag is 16 bytes. -/
theorem tagBytes_len (k : Bytes) (n : Nat) (ad pt : Bytes) :
    (tagBytes k n ad pt).length = TAGLEN := by
  simp [tagBytes, TAGLEN]

/-- The toy AEAD satisfies the §6 contract: decrypt inverts encrypt at the
same key, nonce and associated data. -/
theorem aead_roundtrip (k : Bytes) (n : Nat) (ad pt : Bytes) :
    aeadDecrypt k n ad (aeadEncrypt k n ad pt) = some pt := by
  have hlen : (aeadEncrypt k n ad pt).length = pt.length + TAGLEN := by
    simp [aeadEncrypt, tagBytes_len]
  simp only [aeadDecrypt, hlen]
  rw [if_neg (by omega)]
  have h1 : pt.length + TAGLEN - TAGLEN = pt.length := by omega
  rw [h1]
  have h2 : (aeadEncrypt k n ad pt).take pt.length = pt := by
    simp [aeadEncrypt]
  have h3 : (aeadEncrypt k n ad pt).drop pt.length = tagBytes k n ad pt := by
    simp [aeadEncrypt]
  rw [h2, h3, if_pos rfl]

/-- decrypt_and_mix_hash inverts encrypt_and_mix_hash from an equal symmetric
state, producing the same successor state. -/
theorem decrypt_encrypt_mix (sym : SymmetricState) (pt : Bytes) :
    sym.decryptAndMixHash (sym.encryptAndMixHash pt).1 =
      some (pt, (sym.encryptAndMixHash pt).2) := by
  by_cases hk : sym.hasKey = true
  · simp [SymmetricState.encryptAndMixHash, SymmetricState.decryptAndMixHash, hk, aead_roundtrip]
  · simp at hk
    simp [SymmetricState.encryptAndMixHash, SymmetricState.decryptAndMixHash, hk]

/-- The E token on the write path, in equational form (no psk handshake, no
fixed ephemeral, capacity available). -/
theorem write_e_eq (w : HandshakeState) (msg : Bytes) (cap : Nat)
    (hpw : w.isPskHandshake = false) (hfe : w.fixedEphemeral = false)
    (hc : ¬ cap < msg.length + 2) :
    processWriteToken w msg cap Token.e =
      StepResult.ok (msg ++ dhPubkey w.rng)
        { w with rng := w.rng + 1, e := ⟨⟨w.rng⟩, true⟩,
                 sym := w.sym.mixHash (dhPubkey w.rng) } := by
  simp [processWriteToken, hpw, hfe, DhKey.pubLen, dhLen, hc, DhKey.pubkey, Toggle.enable]

/-- The S token on the write path, in equational form. -/
theorem write_s_eq (w : HandshakeState) (msg : Bytes) (cap : Nat)
    (hs : w.s.onFlag = true)
    (hc1 : ¬ cap < msg.length + 2)
    (hc2 : ¬ cap < msg.length + ((w.sym.encryptAndMixHash w.s.inner.pubkey).1).length) :
    processWriteToken w msg cap Token.s =
      StepResult.ok (msg ++ (w.sym.encryptAndMixHash w.s.inner.pubkey).1)
        { w with sym := (w.sym.encryptAndMixHash w.s.inner.pubkey).2 } := by
  simp [processWriteToken, Toggle.isOn, hs, DhKey.pubLen, dhLen, hc1, hc2]

/-- The mixed key material of one DH token: dh of the selected local keypair
against the selected remote buffer, truncated to dh_len. -/
def dhResult (ab : Bool × Bool) (st : HandshakeState) : Bytes :=
  ((if ab.1 then st.s.inner else st.e.inner).dhOut
    (if ab.2 then st.rs.inner else st.re.inner)).take 2

/-- A DH token on the write path, in equational form (slots available). -/
theorem write_dh_eq (w : HandshakeState) (msg : Bytes) (cap : Nat) (t : Token)
    (ab : Bool × Bool) (hab : dhArgsWrite t = some ab)
    (hg : ((!ab.1 || w.s.isOn) && (ab.1 || w.e.isOn) &&
           (!ab.2 || w.rs.isOn) && (ab.2 || w.re.isOn)) = true) :
    processWriteToken w msg cap t =
      StepResult.ok msg { w with sym := w.sym.mixKey (dhResult ab w) } := by
  cases t <;> cases hab <;> simp at hg <;>
    simp [processWriteToken, dhTokenWrite, dhArgsWrite, HandshakeState.dh, hg, dhResult,
      HandshakeState.dhl, DhKey.pubLen, dhLen]

/-- The E token on the read path, in equational form. -/
theorem read_e_eq (r : HandshakeState) (ptr : Bytes)
    (hpr : r.isPskHandshake = false) (hlen : ¬ ptr.length < 2) :
    processReadToken r ptr Token.e =
      StepResult.ok (ptr.drop 2)
        { r with re := ⟨ptr.take 2 ++ r.re.inner.drop 2, true⟩,
                 sym := r.sym.mixHash (ptr.take 2) } := by
  have htk : (ptr.take 2 ++ r.re.inner.drop 2).take 2 = ptr.take 2 := by
    rw [List.take_append_of_le_length]
    · simp
    · simp
      omega
  simp [processReadToken, HandshakeState.dhl, DhKey.pubLen, dhLen, hpr, hlen, htk,
    Toggle.enable]

/-- The S token on the read path, in equational form. -/
theorem read_s_eq (r : HandshakeState) (ptr : Bytes) (pt : Bytes) (sym2 : SymmetricState)
    (hlen : ¬ ptr.length < (if r.sym.hasKey then 2 + TAGLEN else 2))
    (hdec : r.sym.decryptAndMixHash (ptr.take (if r.sym.hasKey then 2 + TAGLEN else 2)) =
      some (pt, sym2)) :
    processReadToken r ptr Token.s =
      StepResult.ok (ptr.drop (if r.sym.hasKey then 2 + TAGLEN else 2))
        { r with sym := sym2,
                 rs := ⟨pt ++ r.rs.inner.drop pt.length, true⟩ } := by
  simp [processReadToken, HandshakeState.dhl, DhKey.pubLen, dhLen, hlen, hdec, Toggle.enable]

/-- A DH token on the read path, in equational form. -/
theorem read_dh_eq (r : HandshakeState) (ptr : Bytes) (t : Token)
    (ab : Bool × Bool) (hab : dhArgsRead t = some ab)
    (hg : ((!ab.1 || r.s.isOn) && (ab.1 || r.e.isOn) &&
           (!ab.2 || r.rs.isOn) && (ab.2 || r.re.isOn)) = true) :
    processReadToken r ptr t =
      StepResult.ok ptr { r with sym := r.sym.mixKey (dhResult ab r) } := by
  cases t <;> cases hab <;> simp at hg <;>
    simp [processReadToken, dhTokenRead, dhArgsRead, HandshakeState.dh, hg, dhResult,
      HandshakeState.dhl, DhKey.pubLen, dhLen]


/-- The two-sided token-loop invariant: equal symmetric states, non-psk,
non-fixed-ephemeral, both statics on and pre-shared in the peer buffer (the
mkSide setup), and each side ephemeral mirrored by the peer remote-ephemeral
buffer. -/
def Coupled (w r : HandshakeState) : Prop :=
  w.sym = r.sym ∧
  w.isPskHandshake = false ∧ r.isPskHandshake = false ∧
  w.fixedEphemeral = false ∧ r.fixedEphemeral = false ∧
  w.s.onFlag = true ∧ r.s.onFlag = true ∧ w.rs.onFlag = true ∧ r.rs.onFlag = true ∧
  w.rs.inner.headI = r.s.inner.sk ∧ r.rs.inner.headI = w.s.inner.sk ∧
  w.e.onFlag = r.re.onFlag ∧ (w.e.onFlag = true → r.re.inner.headI = w.e.inner.sk) ∧
  r.e.onFlag = w.re.onFlag ∧ (r.e.onFlag = true → w.re.inner.headI = r.e.inner.sk)

/-- One-token simulation: every successful write-path token step is matched by
the read-path step on the emitted chunk, re-establishing the invariant. -/
theorem readToken_sim (t : Token) (hfree : pskFreeTok t = true)
    (w r w2 : HandshakeState) (msgAcc m2 rest : Bytes) (cap : Nat)
    (hC : Coupled w r)
    (hw : processWriteToken w msgAcc cap t = StepResult.ok m2 w2) :
    ∃ c r2, m2 = msgAcc ++ c ∧ processReadToken r (c ++ rest) t = StepResult.ok rest r2 ∧
      Coupled w2 r2 := by
  obtain ⟨hsym, hpw, hpr, hfw, hfr, hsw, hsr, hrsw, hrsr, hkw, hkr, hew, hbw, her, hbr⟩ := hC
  cases t with
  | psk n => simp [pskFreeTok] at hfree
  | e =>
    by_cases hc : cap < msgAcc.length + 2
    · simp [processWriteToken, DhKey.pubLen, dhLen, hc] at hw
    · rw [write_e_eq w msgAcc cap hpw hfw hc] at hw
      cases hw
      have hlc : (dhPubkey w.rng).length = 2 := by simp [dhPubkey]
      have hlen : ¬ (dhPubkey w.rng ++ rest).length < 2 := by
        simp [dhPubkey]
      have htake : (dhPubkey w.rng ++ rest).take 2 = dhPubkey w.rng := by
        rw [← hlc, List.take_left]
      have hdrop : (dhPubkey w.rng ++ rest).drop 2 = rest := by
        rw [← hlc, List.drop_left]
      refine ⟨dhPubkey w.rng,
        { r with re := ⟨dhPubkey w.rng ++ r.re.inner.drop 2, true⟩,
                 sym := r.sym.mixHash (dhPubkey w.rng) }, rfl, ?_, ?_⟩
      · rw [read_e_eq r (dhPubkey w.rng ++ rest) hpr hlen, htake, hdrop]
      · refine ⟨by rw [hsym], hpw, hpr, hfw, hfr, hsw, hsr, hrsw, hrsr, hkw, hkr,
          rfl, ?_, her, hbr⟩
        intro _
        simp [dhPubkey]
  | s =>
    by_cases hc1 : cap < msgAcc.length + 2
    · simp [processWriteToken, Toggle.isOn, hsw, DhKey.pubLen, dhLen, hc1] at hw
    · by_cases hc2 : cap < msgAcc.length + ((w.sym.encryptAndMixHash w.s.inner.pubkey).1).length
      · simp [processWriteToken, Toggle.isOn, hsw, DhKey.pubLen, dhLen, hc1, hc2] at hw
      · rw [write_s_eq w msgAcc cap hsw hc1 hc2] at hw
        cases hw
        have hctlen : ((w.sym.encryptAndMixHash w.s.inner.pubkey).1).length =
            (if r.sym.hasKey then 2 + TAGLEN else 2) := by
          rw [encryptAndMixHash_len, pubkey_len, ← hsym]
          split <;> simp [TAGLEN]
        have hlen : ¬ ((w.sym.encryptAndMixHash w.s.inner.pubkey).1 ++ rest).length <
            (if r.sym.hasKey then 2 + TAGLEN else 2) := by
          simp only [List.length_append, hctlen]
          omega
        have htake : ((w.sym.encryptAndMixHash w.s.inner.pubkey).1 ++ rest).take
            (if r.sym.hasKey then 2 + TAGLEN else 2) =
            (w.sym.encryptAndMixHash w.s.inner.pubkey).1 := by
          rw [← hctlen, List.take_left]
        have hdrop : ((w.sym.encryptAndMixHash w.s.inner.pubkey).1 ++ rest).drop
            (if r.sym.hasKey then 2 + TAGLEN else 2) = rest := by
          rw [← hctlen, List.drop_left]
        have hdec : r.sym.decryptAndMixHash
            (((w.sym.encryptAndMixHash w.s.inner.pubkey).1 ++ rest).take
              (if r.sym.hasKey then 2 + TAGLEN else 2)) =
            some (w.s.inner.pubkey, (w.sym.encryptAndMixHash w.s.inner.pubkey).2) := by
          rw [htake, ← hsym]
          exact decrypt_encrypt_mix w.sym w.s.inner.pubkey
        refine ⟨(w.sym.encryptAndMixHash w.s.inner.pubkey).1,
          { r with sym := (w.sym.encryptAndMixHash w.s.inner.pubkey).2,
                   rs := ⟨w.s.inner.pubkey ++ r.rs.inner.drop (w.s.inner.pubkey).length,
                          true⟩ }, rfl, ?_, ?_⟩
        · rw [read_s_eq r ((w.sym.encryptAndMixHash w.s.inner.pubkey).1 ++ rest)
            w.s.inner.pubkey (w.sym.encryptAndMixHash w.s.inner.pubkey).2 hlen hdec, hdrop]
        · refine ⟨by rw [hsym], hpw, hpr, hfw, hfr, hsw, hsr, hrsw, rfl, hkw, ?_,
            hew, hbw, her, hbr⟩
          simp [DhKey.pubkey, dhPubkey]
  | dhee =>
    have hcond := (processWriteToken_inv hw).1
    simp [wCond, dhArgsWrite, WFlags.ofState, Toggle.isOn] at hcond
    rw [write_dh_eq w msgAcc cap Token.dhee (false, false) rfl
      (by simp [Toggle.isOn, hcond.1, hcond.2])] at hw
    cases hw
    have hre : r.e.onFlag = true := by rw [her]; exact hcond.2
    have hrre : r.re.onFlag = true := by rw [← hew]; exact hcond.1
    have hval : dhResult (false, false) r = dhResult (false, false) w := by
      show (r.e.inner.dhOut r.re.inner).take 2 = (w.e.inner.dhOut w.re.inner).take 2
      simp only [DhKey.dhOut, dhCompute]
      rw [hbw hcond.1, hbr hre, Nat.mul_comm]
    refine ⟨[], { r with sym := r.sym.mixKey (dhResult (false, false) w) }, by simp, ?_, ?_⟩
    · rw [show (([] : Bytes) ++ rest) = rest from rfl,
        read_dh_eq r rest Token.dhee (false, false) rfl
          (by simp [Toggle.isOn, hre, hrre]), hval]
    · exact ⟨by rw [hsym], hpw, hpr, hfw, hfr, hsw, hsr, hrsw, hrsr, hkw, hkr, hew, hbw,
        her, hbr⟩
  | dhes =>
    have hcond := (processWriteToken_inv hw).1
    simp [wCond, dhArgsWrite, WFlags.ofState, Toggle.isOn] at hcond
    rw [write_dh_eq w msgAcc cap Token.dhes (false, true) rfl
      (by simp [Toggle.isOn, hcond.1, hcond.2])] at hw
    cases hw
    have hrre : r.re.onFlag = true := by rw [← hew]; exact hcond.1
    have hval : dhResult (true, false) r = dhResult (false, true) w := by
      show (r.s.inner.dhOut r.re.inner).take 2 = (w.e.inner.dhOut w.rs.inner).take 2
      simp only [DhKey.dhOut, dhCompute]
      rw [hbw hcond.1, hkw, Nat.mul_comm]
    refine ⟨[], { r with sym := r.sym.mixKey (dhResult (false, true) w) }, by simp, ?_, ?_⟩
    · rw [show (([] : Bytes) ++ rest) = rest from rfl,
        read_dh_eq r rest Token.dhes (true, false) rfl
          (by simp [Toggle.isOn, hsr, hrre]), hval]
    · exact ⟨by rw [hsym], hpw, hpr, hfw, hfr, hsw, hsr, hrsw, hrsr, hkw, hkr, hew, hbw,
        her, hbr⟩
  | dhse =>
    have hcond := (processWriteToken_inv hw).1
    simp [wCond, dhArgsWrite, WFlags.ofState, Toggle.isOn] at hcond
    rw [write_dh_eq w msgAcc cap Token.dhse (true, false) rfl
      (by simp [Toggle.isOn, hcond.1, hcond.2])] at hw
    cases hw
    have hre : r.e.onFlag = true := by rw [her]; exact hcond.2
    have hval : dhResult (false, true) r = dhResult (true, false) w := by
      show (r.e.inner.dhOut r.rs.inner).take 2 = (w.s.inner.dhOut w.re.inner).take 2
      simp only [DhKey.dhOut, dhCompute]
      rw [hbr hre, hkr, Nat.mul_comm]
    refine ⟨[], { r with sym := r.sym.mixKey (dhResult (true, false) w) }, by simp, ?_, ?_⟩
    · rw [show (([] : Bytes) ++ rest) = rest from rfl,
        read_dh_eq r rest Token.dhse (false, true) rfl
          (by simp [Toggle.isOn, hre, hrsr]), hval]
    · exact ⟨by rw [hsym], hpw, hpr, hfw, hfr, hsw, hsr, hrsw, hrsr, hkw, hkr, hew, hbw,
        her, hbr⟩
  | dhss =>
    have hcond := (processWriteToken_inv hw).1
    simp [wCond, dhArgsWrite, WFlags.ofState, Toggle.isOn] at hcond
    rw [write_dh_eq w msgAcc cap Token.dhss (true, true) rfl
      (by simp [Toggle.isOn, hsw, hrsw])] at hw
    cases hw
    have hval : dhResult (true, true) r = dhResult (true, true) w := by
      show (r.s.inner.dhOut r.rs.inner).take 2 = (w.s.inner.dhOut w.rs.inner).take 2
      simp only [DhKey.dhOut, dhCompute]
      rw [hkw, hkr, Nat.mul_comm]
    refine ⟨[], { r with sym := r.sym.mixKey (dhResult (true, true) w) }, by simp, ?_, ?_⟩
    · rw [show (([] : Bytes) ++ rest) = rest from rfl,
        read_dh_eq r rest Token.dhss (true, true) rfl
          (by simp [Toggle.isOn, hsr, hrsr]), hval]
    · exact ⟨by rw [hsym], hpw, hpr, hfw, hfr, hsw, hsr, hrsw, hrsr, hkw, hkr, hew, hbw,
        her, hbr⟩


/-- Token-loop simulation: the reader consumes exactly the writer output,
chunk by chunk. -/
theorem readTokens_sim (ts : List Token) :
    ∀ (w r w2 : HandshakeState) (msgAcc m2 rest : Bytes) (cap : Nat),
      (∀ t ∈ ts, pskFreeTok t = true) →
      Coupled w r →
      processWriteTokens w msgAcc cap ts = StepResult.ok m2 w2 →
      ∃ c r2, m2 = msgAcc ++ c ∧
        processReadTokens r (c ++ rest) ts = StepResult.ok rest r2 ∧ Coupled w2 r2 := by
  induction ts with
  | nil =>
    intro w r w2 msgAcc m2 rest cap hfree hC hw
    simp only [processWriteTokens] at hw
    cases hw
    exact ⟨[], r, by simp, by simp [processReadTokens], hC⟩
  | cons t ts ih =>
    intro w r w2 msgAcc m2 rest cap hfree hC hw
    have hft : pskFreeTok t = true := hfree t (by simp)
    have hfts : ∀ u ∈ ts, pskFreeTok u = true := fun u hu => hfree u (by simp [hu])
    simp only [processWriteTokens] at hw
    cases hh : processWriteToken w msgAcc cap t <;> rw [hh] at hw
    case ok mB wB =>
      obtain ⟨c2, hc2⟩ := processWriteTokens_chunk ts hw
      obtain ⟨c1, rB, hmB, hrt, hCB⟩ :=
        readToken_sim t hft w r wB msgAcc mB (c2 ++ rest) cap hC hh
      obtain ⟨c2b, rB2, hm2, hrts, hC2⟩ :=
        ih wB rB w2 mB m2 rest cap hfts hCB hw
      have hc2eq : c2b = c2 := by
        rw [hc2] at hm2
        exact (List.append_cancel_left hm2).symm
      subst hc2eq
      refine ⟨c1 ++ c2b, rB2, ?_, ?_, hC2⟩
      · rw [hm2, hmB, List.append_assoc]
      · simp only [processReadTokens, List.append_assoc]
        rw [hrt]
        exact hrts
    case fail errB stB => cases hw
    case abort => cases hw


/-- The whole-state invariant between the side about to write and the side
about to read. -/
def CoupledSt (w r : HandshakeState) : Prop :=
  Coupled w r ∧ w.messagePatterns = r.messagePatterns ∧
  w.patternPosition = r.patternPosition ∧ w.cipherstates = r.cipherstates ∧
  w.myTurn = true

/-- One full message exchange: when the writer token loop succeeds within
bounds, write_handshake_message succeeds, the peer read_handshake_message
accepts its output, and the invariant holds with the roles swapped. -/
theorem exchange_sim (w r : HandshakeState) (tokens : List Token) (msg : Bytes)
    (w2tok : HandshakeState)
    (hCS : CoupledSt w r)
    (hts : w.messagePatterns.get? w.patternPosition = some tokens)
    (hfree : ∀ t ∈ tokens, pskFreeTok t = true)
    (hwok : processWriteTokens w [] 65535 tokens = StepResult.ok msg w2tok)
    (hcap : msg.length + TAGLEN ≤ 65535) :
    ∃ res w2 res2 r2,
      writeHandshakeMessage w [] 65535 = StepResult.ok res w2 ∧
      readHandshakeMessage r res.2 = StepResult.ok res2 r2 ∧
      CoupledSt r2 w2 ∧
      w2.patternPosition = w.patternPosition + 1 ∧
      w2.messagePatterns = w.messagePatterns ∧
      WFlags.ofState w2 = WFlags.ofState w2tok := by
  obtain ⟨hC, hpats, hpos, hcs, hturn⟩ := hCS
  have hframe := (processWriteTokens_frame tokens w [] 65535).1 msg w2tok hwok
  have hw2pats : w2tok.messagePatterns = w.messagePatterns := hframe.1.2.2.2.2.2.2.2.2.1
  have hw2pos : w2tok.patternPosition = w.patternPosition := hframe.1.2.2.2.2.2.2.2.2.2.1
  have hw2cs : w2tok.cipherstates = w.cipherstates := hframe.1.2.2.2.2.2.2.2.2.2.2
  have hlt : w.patternPosition < w.messagePatterns.length := by
    by_contra hcon
    rw [List.get?_eq_none.mpr (Nat.le_of_not_lt hcon)] at hts
    cases hts
  have hctlen : ((w2tok.sym.encryptAndMixHash []).1).length ≤ TAGLEN := by
    rw [encryptAndMixHash_len]
    split <;> simp [TAGLEN]
  obtain ⟨c, rB, hceq, hrts, hCB⟩ :=
    readTokens_sim tokens w r w2tok [] msg ((w2tok.sym.encryptAndMixHash []).1) 65535 hfree hC hwok
  have hcmsg : c = msg := by simpa using hceq.symm
  subst hcmsg
  have hrframe := (processReadTokens_frame tokens r
    (c ++ (w2tok.sym.encryptAndMixHash []).1)).1 _ rB hrts
  have hrBpats : rB.messagePatterns = r.messagePatterns := hrframe.1.2.2.2.2.2.2.2.2.1
  have hrBpos : rB.patternPosition = r.patternPosition := hrframe.1.2.2.2.2.2.2.2.2.2.1
  have hrBcs : rB.cipherstates = r.cipherstates := hrframe.1.2.2.2.2.2.2.2.2.2.2
  have hsymB : w2tok.sym = rB.sym := hCB.1
  have hdecB : rB.sym.decryptAndMixHash (w2tok.sym.encryptAndMixHash []).1 =
      some ([], (w2tok.sym.encryptAndMixHash []).2) := by
    rw [hsymB]
    exact decrypt_encrypt_mix rB.sym []
  have hmlen : (c ++ (w2tok.sym.encryptAndMixHash []).1).length ≤ MAXMSGLEN := by
    simp only [List.length_append, MAXMSGLEN]
    simp only [TAGLEN] at hcap hctlen
    omega
  have hgetr : r.messagePatterns.get? r.patternPosition = some tokens := by
    rw [← hpats, ← hpos]
    exact hts
  have hlastIff : (r.patternPosition = r.messagePatterns.length - 1) ↔
      (w2tok.patternPosition = w2tok.messagePatterns.length - 1) := by
    rw [← hpos, ← hpats, hw2pos, hw2pats]
  by_cases hlast : w2tok.patternPosition = w2tok.messagePatterns.length - 1
  · have hiw : innerWrite w [] 65535 =
        StepResult.ok ((c ++ (w2tok.sym.encryptAndMixHash []).1).length,
          c ++ (w2tok.sym.encryptAndMixHash []).1)
          { w2tok with sym := (w2tok.sym.encryptAndMixHash []).2,
                       cipherstates := ((w2tok.sym.encryptAndMixHash []).2).split,
                       myTurn := false } := by
      unfold innerWrite
      rw [if_neg (by simp [hturn]), if_neg (Nat.not_le.mpr hlt), hts]
      dsimp only
      rw [hwok]
      dsimp only
      rw [if_neg (by simp only [TAGLEN] at hcap ⊢; simp; omega)]
      rw [if_neg (by simp only [TAGLEN] at hcap hctlen ⊢; omega)]
      rw [if_neg (by
        simp only [List.length_append, MAXMSGLEN, TAGLEN] at hcap hctlen ⊢
        omega)]
      rw [if_pos hlast]
    have hir : innerRead r (c ++ (w2tok.sym.encryptAndMixHash []).1) =
        StepResult.ok
          ((if ((w2tok.sym.encryptAndMixHash []).2).hasKey then
              ((w2tok.sym.encryptAndMixHash []).1).length - TAGLEN
            else ((w2tok.sym.encryptAndMixHash []).1).length), [])
          { rB with sym := (w2tok.sym.encryptAndMixHash []).2,
                    myTurn := true,
                    cipherstates := ((w2tok.sym.encryptAndMixHash []).2).split } := by
      unfold innerRead
      rw [if_neg (Nat.not_lt.mpr hmlen)]
      dsimp only
      rw [hgetr]
      dsimp only
      rw [hrts]
      dsimp only
      rw [hdecB]
      dsimp only
      rw [if_pos (hlastIff.mpr hlast)]
    refine ⟨((c ++ (w2tok.sym.encryptAndMixHash []).1).length,
        c ++ (w2tok.sym.encryptAndMixHash []).1),
      { w2tok with sym := (w2tok.sym.encryptAndMixHash []).2,
                   cipherstates := ((w2tok.sym.encryptAndMixHash []).2).split,
                   myTurn := false, patternPosition := w2tok.patternPosition + 1 },
      ((if ((w2tok.sym.encryptAndMixHash []).2).hasKey then
          ((w2tok.sym.encryptAndMixHash []).1).length - TAGLEN
        else ((w2tok.sym.encryptAndMixHash []).1).length), []),
      { rB with sym := (w2tok.sym.encryptAndMixHash []).2, myTurn := true,
                cipherstates := ((w2tok.sym.encryptAndMixHash []).2).split,
                patternPosition := rB.patternPosition + 1 },
      ?_, ?_, ?_, ?_, ?_, ?_⟩
    · unfold writeHandshakeMessage
      rw [hiw]
    · unfold readHandshakeMessage
      rw [hir]
    · obtain ⟨s1, s2, s3, s4, s5, s6, s7, s8, s9, s10, s11, s12, s13, s14, s15⟩ := hCB
      refine ⟨⟨rfl, s3, s2, s5, s4, s7, s6, s9, s8, s11, s10, ?_, s15, ?_, s13⟩, ?_, ?_, ?_, rfl⟩
      · exact s14
      · exact s12
      · rw [hrBpats, ← hpats, hw2pats]
      · rw [hrBpos, ← hpos, hw2pos]
      · rfl
    · simp [hw2pos]
    · simp [hw2pats]
    · simp [WFlags.ofState, encryptAndMixHash_hasKey]
  · have hiw : innerWrite w [] 65535 =
        StepResult.ok ((c ++ (w2tok.sym.encryptAndMixHash []).1).length,
          c ++ (w2tok.sym.encryptAndMixHash []).1)
          { w2tok with sym := (w2tok.sym.encryptAndMixHash []).2,
                       myTurn := false } := by
      unfold innerWrite
      rw [if_neg (by simp [hturn]), if_neg (Nat.not_le.mpr hlt), hts]
      dsimp only
      rw [hwok]
      dsimp only
      rw [if_neg (by simp only [TAGLEN] at hcap ⊢; simp; omega)]
      rw [if_neg (by simp only [TAGLEN] at hcap hctlen ⊢; omega)]
      rw [if_neg (by
        simp only [List.length_append, MAXMSGLEN, TAGLEN] at hcap hctlen ⊢
        omega)]
      rw [if_neg hlast]
    have hir : innerRead r (c ++ (w2tok.sym.encryptAndMixHash []).1) =
        StepResult.ok
          ((if ((w2tok.sym.encryptAndMixHash []).2).hasKey then
              ((w2tok.sym.encryptAndMixHash []).1).length - TAGLEN
            else ((w2tok.sym.encryptAndMixHash []).1).length), [])
          { rB with sym := (w2tok.sym.encryptAndMixHash []).2,
                    myTurn := true } := by
      unfold innerRead
      rw [if_neg (Nat.not_lt.mpr hmlen)]
      dsimp only
      rw [hgetr]
      dsimp only
      rw [hrts]
      dsimp only
      rw [hdecB]
      dsimp only
      rw [if_neg (fun hh => hlast (hlastIff.mp hh))]
    refine ⟨((c ++ (w2tok.sym.encryptAndMixHash []).1).length,
        c ++ (w2tok.sym.encryptAndMixHash []).1),
      { w2tok with sym := (w2tok.sym.encryptAndMixHash []).2,
                   myTurn := false, patternPosition := w2tok.patternPosition + 1 },
      ((if ((w2tok.sym.encryptAndMixHash []).2).hasKey then
          ((w2tok.sym.encryptAndMixHash []).1).length - TAGLEN
        else ((w2tok.sym.encryptAndMixHash []).1).length), []),
      { rB with sym := (w2tok.sym.encryptAndMixHash []).2, myTurn := true,
                patternPosition := rB.patternPosition + 1 },
      ?_, ?_, ?_, ?_, ?_, ?_⟩
    · unfold writeHandshakeMessage
      rw [hiw]
    · unfold readHandshakeMessage
      rw [hir]
    · obtain ⟨s1, s2, s3, s4, s5, s6, s7, s8, s9, s10, s11, s12, s13, s14, s15⟩ := hCB
      refine ⟨⟨rfl, s3, s2, s5, s4, s7, s6, s9, s8, s11, s10, ?_, s15, ?_, s13⟩, ?_, ?_, ?_, rfl⟩
      · exact s14
      · exact s12
      · rw [hrBpats, ← hpats, hw2pats]
      · rw [hrBpos, ← hpos, hw2pos]
      · rw [hrBcs, ← hcs, hw2cs]
    · simp [hw2pos]
    · simp [hw2pats]
    · simp [WFlags.ofState, encryptAndMixHash_hasKey]


/-- The peer view of the write-relevant flags (own and remote ephemeral flags
swap). -/
def mirrorF (f : WFlags) : WFlags := ⟨f.sF, f.reF, f.rsF, f.eF, f.key⟩

/-- mirrorF is an involution. -/
theorem mirrorF_mirrorF (f : WFlags) : mirrorF (mirrorF f) = f := rfl

/-- Under the invariant, the reader flags are the mirror of the writer
flags. -/
theorem coupled_flags {a b : HandshakeState} (hC : Coupled a b) :
    WFlags.ofState b = mirrorF (WFlags.ofState a) := by
  obtain ⟨hsym, hpw, hpr, hfw, hfr, hsw, hsr, hrsw, hrsr, hkw, hkr, hew, hbw, her, hbr⟩ := hC
  simp only [WFlags.ofState, mirrorF]
  rw [hsw, hsr, hrsw, hrsr, hsym, her, hew]

/-- Static write validity ignores the psk array on Psk-free token lists. -/
theorem wOkF_pskFree (ts : List Token) :
    ∀ (h : ∀ t ∈ ts, pskFreeTok t = true) (ip : Bool) (ps ps2 : List (Option Bytes)) (f : WFlags),
      wOkF ip ps f ts = wOkF ip ps2 f ts := by
  induction ts with
  | nil => intro _ _ _ _ _; rfl
  | cons t ts ih =>
    intro h ip ps ps2 f
    have ht := h t (by simp)
    have hts : ∀ u ∈ ts, pskFreeTok u = true := fun u hu => h u (by simp [hu])
    simp only [wOkF]
    rw [ih hts ip ps ps2]
    cases t <;> simp [wCond, pskFreeTok] at ht ⊢

/-- Decidable whole-handshake schedule validity: every message is Psk-free,
statically writable, and fits MAXMSGLEN, with the flags mirrored between the
alternating writers. -/
def schedOk : WFlags → List (List Token) → Bool
  | _, [] => true
  | f, m :: ms =>
    m.all pskFreeTok && wOkF false noPsks f m &&
    decide (wLen false f.key m + TAGLEN ≤ MAXMSGLEN) &&
    schedOk (mirrorF (wStepList false f m)) ms

/-- The lockstep run: a coupled pair with a valid remaining schedule completes
the handshake with equal symmetric states and equal transport cipher-state
pairs on both sides. -/
theorem run_sim (n : Nat) : ∀ (w r : HandshakeState),
    CoupledSt w r →
    w.patternPosition ≤ w.messagePatterns.length →
    schedOk (WFlags.ofState w) (w.messagePatterns.drop w.patternPosition) = true →
    (w.messagePatterns.drop w.patternPosition).length = n →
    ∃ fw fr, runEx n w r = some (fw, fr) ∧
      fw.sym = fr.sym ∧ fw.cipherstates = fr.cipherstates ∧
      fw.patternPosition = fw.messagePatterns.length ∧
      fr.patternPosition = fr.messagePatterns.length := by
  induction n with
  | zero =>
    intro w r hCS hple hsched hlen
    have hfin : w.patternPosition = w.messagePatterns.length := by
      rw [List.length_drop] at hlen
      omega
    refine ⟨w, r, rfl, hCS.1.1, hCS.2.2.2.1, hfin, ?_⟩
    rw [← hCS.2.2.1, ← hCS.2.1]
    exact hfin
  | succ n ih =>
    intro w r hCS hple hsched hlen
    cases hdrop : w.messagePatterns.drop w.patternPosition with
    | nil => rw [hdrop] at hlen; cases hlen
    | cons m ms =>
      have hget : w.messagePatterns.get? w.patternPosition = some m := by
        have h0 := List.get?_drop w.messagePatterns w.patternPosition 0
        rw [hdrop] at h0
        simpa using h0.symm
      rw [hdrop] at hsched hlen
      simp only [schedOk, Bool.and_eq_true, decide_eq_true_eq] at hsched
      obtain ⟨⟨⟨hfreeB, hwokB⟩, hlenB⟩, hschedB⟩ := hsched
      have hfree : ∀ t ∈ m, pskFreeTok t = true := by
        intro t ht
        exact List.all_eq_true.mp hfreeB t ht
      have hisPsk : w.isPskHandshake = false := hCS.1.2.1
      have hwOk : wOkF w.isPskHandshake w.psks (WFlags.ofState w) m = true := by
        rw [hisPsk, wOkF_pskFree m hfree false w.psks noPsks]
        exact hwokB
      have hlenOk : ([] : Bytes).length + wLen w.isPskHandshake w.sym.hasKey m ≤ 65535 := by
        rw [hisPsk]
        have : wLen false w.sym.hasKey m = wLen false (WFlags.ofState w).key m := rfl
        rw [this]
        simp only [MAXMSGLEN, TAGLEN] at hlenB
        simp
        omega
      obtain ⟨msg, w2tok, hwok, hmsglen, hflags, _, _⟩ :=
        processWriteTokens_ok_of m w [] 65535 hwOk hlenOk
      have hcap : msg.length + TAGLEN ≤ 65535 := by
        rw [hmsglen, hisPsk]
        have : wLen false w.sym.hasKey m = wLen false (WFlags.ofState w).key m := rfl
        rw [this]
        simp only [MAXMSGLEN, TAGLEN] at hlenB ⊢
        simp
        omega
      obtain ⟨res, w2, res2, r2, hwrite, hread, hCS2, hw2pos, hw2pats, hw2flags⟩ :=
        exchange_sim w r m msg w2tok hCS hget hfree hwok hcap
      have h1 : WFlags.ofState w2 = wStepList false (WFlags.ofState w) m := by
        rw [hw2flags, hflags, hisPsk]
      have hflags2 : WFlags.ofState r2 = mirrorF (wStepList false (WFlags.ofState w) m) := by
        rw [← h1]
        have := coupled_flags hCS2.1
        rw [this, mirrorF_mirrorF]
      have hr2pats : r2.messagePatterns = w.messagePatterns := by
        rw [hCS2.2.1, hw2pats]
      have hr2pos : r2.patternPosition = w.patternPosition + 1 := by
        rw [hCS2.2.2.1, hw2pos]
      have hdrop2 : r2.messagePatterns.drop r2.patternPosition = ms := by
        rw [hr2pats, hr2pos]
        have hdd : w.messagePatterns.drop (w.patternPosition + 1) =
            (w.messagePatterns.drop w.patternPosition).drop 1 := by
          rw [List.drop_drop, Nat.add_comm]
        rw [hdd, hdrop]
        rfl
      have hple2 : r2.patternPosition ≤ r2.messagePatterns.length := by
        rw [hr2pats, hr2pos]
        have : w.patternPosition < w.messagePatterns.length := by
          by_contra hcon
          rw [List.get?_eq_none.mpr (Nat.le_of_not_lt hcon)] at hget
          cases hget
        omega
      have hsched2 : schedOk (WFlags.ofState r2)
          (r2.messagePatterns.drop r2.patternPosition) = true := by
        rw [hdrop2, hflags2]
        exact hschedB
      have hlen2 : (r2.messagePatterns.drop r2.patternPosition).length = n := by
        rw [hdrop2]
        simpa using hlen
      obtain ⟨fw, fr, hrunN, hfsym, hfcs, hffw, hffr⟩ := ih r2 w2 hCS2 hple2 hsched2 hlen2
      refine ⟨fw, fr, ?_, hfsym, hfcs, hffw, hffr⟩
      simp only [runEx, hwrite, hread]
      exact hrunN


/-- seqO over a list of present values. -/
theorem seqO_map_some {α β : Type} (g : α → β) (l : List α) :
    seqO (l.map (fun a => some (g a))) = some (l.map g) := by
  induction l with
  | nil => rfl
  | cons a l ih => simp [seqO, ih]

/-- The pre-shared remote-static buffer truncates to the peer public key. -/
theorem pubBuf_take (sk : Nat) : (pubBuf sk).take 2 = dhPubkey sk := by
  simp [pubBuf, dhPubkey]

/-- The pre-message keys of a pattern, given the two static public keys. -/
def premsgKeysOf (p : HandshakePattern) (kI kR : Bytes) : List Bytes :=
  (basePatternTokens p).premsgPatternI.map (fun _ => kI) ++
  (basePatternTokens p).premsgPatternR.map (fun _ => kR)

/-- Construction of one mkSide side succeeds (for S-only pre-messages) and
produces the fully explicit state. -/
theorem mkSide_new (ini : Bool) (skS skP seed : Nat) (p : HandshakePattern)
    (psks : List (Option Bytes)) (pro name : Bytes)
    (hI : ∀ t ∈ (basePatternTokens p).premsgPatternI, t = Token.s)
    (hR : ∀ t ∈ (basePatternTokens p).premsgPatternR, t = Token.s) :
    mkSide ini skS skP seed ⟨p, []⟩ psks pro name =
      POutcome.ok
        { rng := seed
          sym := specConstructedSym name pro
            (premsgKeysOf p (dhPubkey (if ini then skS else skP))
              (dhPubkey (if ini then skP else skS)))
          cipherstates := (⟨[], 0⟩, ⟨[], 0⟩)
          s := Toggle.mkOn ⟨skS⟩
          e := Toggle.mkOff ⟨0⟩
          fixedEphemeral := false
          rs := Toggle.mkOn (pubBuf skP)
          re := Toggle.mkOff zerosBuf
          initiator := ini
          isPskHandshake := false
          psks := psks
          myTurn := ini
          messagePatterns := (basePatternTokens p).msgPatterns
          patternPosition := 0 } := by
  have hIse : ∀ t ∈ (basePatternTokens p).premsgPatternI, t = Token.s ∨ t = Token.e :=
    fun t ht => Or.inl (hI t ht)
  have hRse : ∀ t ∈ (basePatternTokens p).premsgPatternR, t = Token.s ∨ t = Token.e :=
    fun t ht => Or.inl (hR t ht)
  unfold mkSide HandshakeState.new
  rw [if_neg (by
    simp [Toggle.isOn, Toggle.mkOn, Toggle.mkOff, pubBuf, dhPubkey, zerosBuf, MAXDHLEN,
      DhKey.pubLen, dhLen])]
  rw [show HandshakeTokens.tryFrom (⟨p, []⟩ : HandshakeChoice) =
    Except.ok (basePatternTokens p) from rfl]
  dsimp only
  cases ini with
  | true =>
    rw [mixPremsg_spec (Toggle.mkOn ⟨skS⟩) (Toggle.mkOff ⟨0⟩) (Toggle.mkOn (pubBuf skP))
      (Toggle.mkOff zerosBuf) ((Toggle.mkOn (⟨skS⟩ : DhKey)).inner.pubLen) true
      (basePatternTokens p).premsgPatternI hIse]
    rw [show List.map (specPremsgKey (Toggle.mkOn ⟨skS⟩) (Toggle.mkOff ⟨0⟩)
        (Toggle.mkOn (pubBuf skP)) (Toggle.mkOff zerosBuf)
        ((Toggle.mkOn (⟨skS⟩ : DhKey)).inner.pubLen) true)
        (basePatternTokens p).premsgPatternI =
      List.map (fun _ => some (dhPubkey skS)) (basePatternTokens p).premsgPatternI from by
        apply List.map_congr_left
        intro t ht
        rw [hI t ht]
        simp [specPremsgKey, Toggle.get, Toggle.mkOn, DhKey.pubkey]]
    rw [show List.map (fun (_ : Token) => some (dhPubkey skS)) =
      List.map (fun (t : Token) => some ((fun _ => dhPubkey skS) t)) from rfl]
    rw [seqO_map_some]
    dsimp only
    simp only [Bool.not_true]
    rw [mixPremsg_spec (Toggle.mkOn ⟨skS⟩) (Toggle.mkOff ⟨0⟩) (Toggle.mkOn (pubBuf skP))
      (Toggle.mkOff zerosBuf) ((Toggle.mkOn (⟨skS⟩ : DhKey)).inner.pubLen) false
      (basePatternTokens p).premsgPatternR hRse]
    rw [show List.map (specPremsgKey (Toggle.mkOn ⟨skS⟩) (Toggle.mkOff ⟨0⟩)
        (Toggle.mkOn (pubBuf skP)) (Toggle.mkOff zerosBuf)
        ((Toggle.mkOn (⟨skS⟩ : DhKey)).inner.pubLen) false)
        (basePatternTokens p).premsgPatternR =
      List.map (fun _ => some (dhPubkey skP)) (basePatternTokens p).premsgPatternR from by
        apply List.map_congr_left
        intro t ht
        rw [hR t ht]
        simp [specPremsgKey, Toggle.get, Toggle.mkOn, Toggle.mkOff, DhKey.pubLen, dhLen,
          pubBuf_take]]
    rw [show List.map (fun (_ : Token) => some (dhPubkey skP)) =
      List.map (fun (t : Token) => some ((fun _ => dhPubkey skP) t)) from rfl]
    rw [seqO_map_some]
    dsimp only
    simp [specConstructedSym, premsgKeysOf, List.foldl_append, HandshakeChoice.isPsk]
  | false =>
    rw [mixPremsg_spec (Toggle.mkOn ⟨skS⟩) (Toggle.mkOff ⟨0⟩) (Toggle.mkOn (pubBuf skP))
      (Toggle.mkOff zerosBuf) ((Toggle.mkOn (⟨skS⟩ : DhKey)).inner.pubLen) false
      (basePatternTokens p).premsgPatternI hIse]
    rw [show List.map (specPremsgKey (Toggle.mkOn ⟨skS⟩) (Toggle.mkOff ⟨0⟩)
        (Toggle.mkOn (pubBuf skP)) (Toggle.mkOff zerosBuf)
        ((Toggle.mkOn (⟨skS⟩ : DhKey)).inner.pubLen) false)
        (basePatternTokens p).premsgPatternI =
      List.map (fun _ => some (dhPubkey skP)) (basePatternTokens p).premsgPatternI from by
        apply List.map_congr_left
        intro t ht
        rw [hI t ht]
        simp [specPremsgKey, Toggle.get, Toggle.mkOn, Toggle.mkOff, DhKey.pubLen, dhLen,
          pubBuf_take]]
    rw [show List.map (fun (_ : Token) => some (dhPubkey skP)) =
      List.map (fun (t : Token) => some ((fun _ => dhPubkey skP) t)) from rfl]
    rw [seqO_map_some]
    dsimp only
    simp only [Bool.not_false]
    rw [mixPremsg_spec (Toggle.mkOn ⟨skS⟩) (Toggle.mkOff ⟨0⟩) (Toggle.mkOn (pubBuf skP))
      (Toggle.mkOff zerosBuf) ((Toggle.mkOn (⟨skS⟩ : DhKey)).inner.pubLen) true
      (basePatternTokens p).premsgPatternR hRse]
    rw [show List.map (specPremsgKey (Toggle.mkOn ⟨skS⟩) (Toggle.mkOff ⟨0⟩)
        (Toggle.mkOn (pubBuf skP)) (Toggle.mkOff zerosBuf)
        ((Toggle.mkOn (⟨skS⟩ : DhKey)).inner.pubLen) true)
        (basePatternTokens p).premsgPatternR =
      List.map (fun _ => some (dhPubkey skS)) (basePatternTokens p).premsgPatternR from by
        apply List.map_congr_left
        intro t ht
        rw [hR t ht]
        simp [specPremsgKey, Toggle.get, Toggle.mkOn, DhKey.pubkey]]
    rw [show List.map (fun (_ : Token) => some (dhPubkey skS)) =
      List.map (fun (t : Token) => some ((fun _ => dhPubkey skS) t)) from rfl]
    rw [seqO_map_some]
    dsimp only
    simp [specConstructedSym, premsgKeysOf, List.foldl_append, HandshakeChoice.isPsk]


/-- mix_hash never installs a key. -/
theorem foldl_mixHash_hasKey (ks : List Bytes) :
    ∀ (sy : SymmetricState), (ks.foldl SymmetricState.mixHash sy).hasKey = sy.hasKey := by
  induction ks with
  | nil => intro sy; rfl
  | cons k ks ih =>
    intro sy
    simp only [List.foldl_cons, ih]
    rfl

/-- The constructed symmetric state has no key installed. -/
theorem specConstructedSym_hasKey (name pro : Bytes) (keys : List Bytes) :
    (specConstructedSym name pro keys).hasKey = false := by
  unfold specConstructedSym
  rw [foldl_mixHash_hasKey]
  rfl

/-- Every supported pattern has S-only pre-messages. -/
theorem premsg_all_s : ∀ p ∈ supportedPatterns,
    (∀ t ∈ (basePatternTokens p).premsgPatternI, t = Token.s) ∧
    (∀ t ∈ (basePatternTokens p).premsgPatternR, t = Token.s) := by decide

/-- Every supported pattern has a valid schedule from the fresh mkSide
flags. -/
theorem sched_all : ∀ p ∈ supportedPatterns,
    schedOk ⟨true, false, true, false, false⟩ (basePatternTokens p).msgPatterns = true := by
  decide

/-- The state a fresh mkSide side is in, explicitly. -/
def sideRec (ini : Bool) (skS skP seed : Nat) (p : HandshakePattern)
    (psks : List (Option Bytes)) (pro name : Bytes) : HandshakeState :=
  { rng := seed
    sym := specConstructedSym name pro
      (premsgKeysOf p (dhPubkey (if ini then skS else skP))
        (dhPubkey (if ini then skP else skS)))
    cipherstates := (⟨[], 0⟩, ⟨[], 0⟩)
    s := Toggle.mkOn ⟨skS⟩
    e := Toggle.mkOff ⟨0⟩
    fixedEphemeral := false
    rs := Toggle.mkOn (pubBuf skP)
    re := Toggle.mkOff zerosBuf
    initiator := ini
    isPskHandshake := false
    psks := psks
    myTurn := ini
    messagePatterns := (basePatternTokens p).msgPatterns
    patternPosition := 0 }

/-- mkSide_new restated against sideRec. -/
theorem mkSide_new2 (ini : Bool) (skS skP seed : Nat) (p : HandshakePattern)
    (psks : List (Option Bytes)) (pro name : Bytes)
    (hI : ∀ t ∈ (basePatternTokens p).premsgPatternI, t = Token.s)
    (hR : ∀ t ∈ (basePatternTokens p).premsgPatternR, t = Token.s) :
    mkSide ini skS skP seed ⟨p, []⟩ psks pro name =
      POutcome.ok (sideRec ini skS skP seed p psks pro name) :=
  mkSide_new ini skS skP seed p psks pro name hI hR

/-- C1: for every supported pattern, any prologue, protocol name, psk
configuration, static keys and RNG seeds, both sides construct successfully,
the lockstep run (each write fed to the peer read) completes with every call
succeeding, both handshake hashes equal, and the two transport cipher-state
pairs identical; and the transport cipher states form a symmetric pair (what
one side encrypts at a nonce, the peer state decrypts, advancing alike). -/
theorem c1_round_trip :
    (∀ p ∈ supportedPatterns, ∀ (skI skR seedI seedR : Nat) (pro name : Bytes)
        (psks : List (Option Bytes)),
      ∃ wI wR fw fr,
        mkSide true skI skR seedI ⟨p, []⟩ psks pro name = POutcome.ok wI ∧
        mkSide false skR skI seedR ⟨p, []⟩ psks pro name = POutcome.ok wR ∧
        runEx (basePatternTokens p).msgPatterns.length wI wR = some (fw, fr) ∧
        getHandshakeHash fw = getHandshakeHash fr ∧
        fw.cipherstates = fr.cipherstates ∧
        isFinished fw = true ∧ isFinished fr = true) ∧
    (∀ (cs : CipherState) (ad pt : Bytes),
      cs.decryptWith ad (cs.encryptWith ad pt).1 = some (pt, (cs.encryptWith ad pt).2)) := by
  constructor
  · intro p hp skI skR seedI seedR pro name psks
    obtain ⟨hpI, hpR⟩ := premsg_all_s p hp
    have hmkI := mkSide_new2 true skI skR seedI p psks pro name hpI hpR
    have hmkR := mkSide_new2 false skR skI seedR p psks pro name hpI hpR
    have hCS : CoupledSt (sideRec true skI skR seedI p psks pro name)
        (sideRec false skR skI seedR p psks pro name) := by
      refine ⟨⟨rfl, rfl, rfl, rfl, rfl, rfl, rfl, rfl, rfl, rfl, rfl, rfl,
        by intro h; simp [sideRec, Toggle.mkOff] at h, rfl,
        by intro h; simp [sideRec, Toggle.mkOff] at h⟩, rfl, rfl, rfl, rfl⟩
    have hflags : WFlags.ofState (sideRec true skI skR seedI p psks pro name) =
        ⟨true, false, true, false, false⟩ := by
      simp [WFlags.ofState, sideRec, specConstructedSym_hasKey, Toggle.mkOn, Toggle.mkOff]
    have hple : (sideRec true skI skR seedI p psks pro name).patternPosition ≤
        (sideRec true skI skR seedI p psks pro name).messagePatterns.length :=
      Nat.zero_le _
    have hsched : schedOk (WFlags.ofState (sideRec true skI skR seedI p psks pro name))
        ((sideRec true skI skR seedI p psks pro name).messagePatterns.drop
          (sideRec true skI skR seedI p psks pro name).patternPosition) = true := by
      rw [hflags]
      simpa [sideRec] using sched_all p hp
    have hlen : ((sideRec true skI skR seedI p psks pro name).messagePatterns.drop
        (sideRec true skI skR seedI p psks pro name).patternPosition).length =
        (basePatternTokens p).msgPatterns.length := by
      simp [sideRec]
    obtain ⟨fw, fr, hrun, hsym, hcs, hfw, hfr⟩ :=
      run_sim (basePatternTokens p).msgPatterns.length
        (sideRec true skI skR seedI p psks pro name)
        (sideRec false skR skI seedR p psks pro name) hCS hple hsched hlen
    refine ⟨_, _, fw, fr, hmkI, hmkR, hrun, ?_, hcs, ?_, ?_⟩
    · simp [getHandshakeHash, hsym]
    · simp [isFinished, hfw]
    · simp [isFinished, hfr]
  · intro cs ad pt
    simp [CipherState.encryptWith, CipherState.decryptWith, aead_roundtrip]

/-- C1 witness: the Noise_XX run at concrete keys and seeds. -/
theorem c1_round_trip_witness :
    ∃ wI wR fw fr,
      mkSide true 3 5 100 ⟨HandshakePattern.XX, []⟩ noPsks [7] [1, 2] = POutcome.ok wI ∧
      mkSide false 5 3 200 ⟨HandshakePattern.XX, []⟩ noPsks [7] [1, 2] = POutcome.ok wR ∧
      runEx (basePatternTokens HandshakePattern.XX).msgPatterns.length wI wR = some (fw, fr) ∧
      getHandshakeHash fw = getHandshakeHash fr ∧
      fw.cipherstates = fr.cipherstates ∧
      isFinished fw = true ∧ isFinished fr = true :=
  c1_round_trip.1 HandshakePattern.XX (by decide) 3 5 100 200 [7] [1, 2] noPsks


end Screech
